import Mathlib

/-!
# chrono_demo.cpp: elapsed-time arithmetic

A shallow embedding of the arithmetic performed by `chrono/source/chrono_demo.cpp`.

* Timestamps and integer durations are tick counts (`ℤ`); 32/64-bit wrap-around is
  explicit where the source computes in a fixed-width type.
* A `double` / `float` value is the rational number it denotes.  Every floating-point
  operation of the source is the exact rational operation followed by `roundNE`, the
  IEEE-754 round-to-nearest, ties-to-even rounding onto the 53-bit (`double`) or 24-bit
  (`float`) significand.  The exponent range is not bounded: all quantities handled by
  the program have magnitude `0` or between `2^-64` and `2^94`, well inside the normal
  range of both formats.
* `std::chrono::duration_cast` follows the four cases of [time.duration.cast] of the
  C++ standard.
-/

namespace ChronoDemo

/-! ## Floating-point rounding -/

/-- Nearest integer to `x`; a tie goes to the even neighbour. -/
def roundHalfEven (x : ℚ) : ℤ :=
  if x - ⌊x⌋ < 1 / 2 then ⌊x⌋
  else if 1 / 2 < x - ⌊x⌋ then ⌊x⌋ + 1
  else if ⌊x⌋ % 2 = 0 then ⌊x⌋ else ⌊x⌋ + 1

/-- Exponent of the unit in the last place of `x` for a `p`-bit significand:
`⌊log₂ |x|⌋ - (p - 1)`. -/
def ulpExp (p : ℕ) (x : ℚ) : ℤ :=
  Int.log 2 |x| - ((p : ℤ) - 1)

/-- Round `x` to the nearest binary floating-point number with a `p`-bit significand,
ties to even (IEEE-754 `roundTiesToEven`). -/
def roundNE (p : ℕ) (x : ℚ) : ℚ :=
  if x = 0 then 0
  else (roundHalfEven (x / 2 ^ ulpExp p x) : ℚ) * 2 ^ ulpExp p x

/-- Rounding to `double` (IEEE-754 binary64, 53-bit significand). -/
def to_double (x : ℚ) : ℚ := roundNE 53 x

/-- Rounding to `float` (IEEE-754 binary32, 24-bit significand). -/
def to_float (x : ℚ) : ℚ := roundNE 24 x

/-- Conversion of a floating-point value to an integer type: the fractional part is
discarded (truncation toward zero). -/
def truncate (x : ℚ) : ℤ :=
  if 0 ≤ x then ⌊x⌋ else ⌈x⌉

/-- Two's-complement reduction of an integer to a signed `w`-bit value. -/
def wrapSigned (w : ℕ) (z : ℤ) : ℤ :=
  (z + 2 ^ (w - 1)) % 2 ^ w - 2 ^ (w - 1)

/-- Reduction of an integer to an unsigned `w`-bit value. -/
def wrapUnsigned (w : ℕ) (z : ℤ) : ℤ :=
  z % 2 ^ w

/-! ## Portability shim (`#ifdef _WIN32` branch) -/

/-- The shim's `struct timeval { long tv_sec; long tv_usec; }`. -/
structure timeval where
  tv_sec : ℤ
  tv_usec : ℤ
deriving DecidableEq

/-- The constant `EPOCH` of `gettimeofday`: "FILETIME Jan 1 1970 00:00:00". -/
def EPOCH : ℤ := 116444736000000000

/-- The shim `gettimeofday(tp, tzp)`.  Its inputs are what `GetSystemTime` and
`SystemTimeToFileTime` delivered: the `wMilliseconds` field (a 16-bit `WORD`) and the two
32-bit halves of the `FILETIME`.  The result is the return value and `*tp`.
`nTime` is a `uint64_t`; `long` has 32 bits on this platform. -/
def gettimeofday (wMilliseconds dwLowDateTime dwHighDateTime : ℤ) : ℤ × timeval :=
  let nTime0 := wrapUnsigned 64 dwLowDateTime
  let nTime := wrapUnsigned 64 (nTime0 + wrapUnsigned 64 (wrapUnsigned 64 dwHighDateTime * 2 ^ 32))
  let tv_sec := wrapSigned 32 (wrapUnsigned 64 (nTime - EPOCH) / 10000000)
  let tv_usec := wrapSigned 32 (wrapSigned 32 (wMilliseconds * 1000))
  (0, { tv_sec := tv_sec, tv_usec := tv_usec })

/-- The shim `sleep(seconds)`: the pair of the argument handed to `Sleep` (a 32-bit
`unsigned int` product) and the returned value. -/
def sleep (seconds : ℤ) : ℤ × ℤ :=
  (wrapUnsigned 32 (seconds * 1000), 0)

/-- The workload `benchmark_c`: `sleep(1)`. -/
def benchmark_c : ℤ × ℤ :=
  sleep 1

/-! ## Plain C timing -/

/-- The value printed by `demo_c_time` for the two `gettimeofday` readings:
`double ms = (end.tv_sec - start.tv_sec) * 1000.f`.  The difference is a `long` of
`long_bits` bits (32 with the shim, 64 on LP64), the product is computed in `float`,
and the result is widened to `double`. -/
def demo_c_time (long_bits : ℕ) (start end_ : timeval) : ℚ :=
  let diff := wrapSigned long_bits (end_.tv_sec - start.tv_sec)
  to_double (to_float (to_float diff * 1000))

/-- The time that really elapsed between two `gettimeofday` readings, in microseconds;
the quantity `demo_c_time` is meant to report (in milliseconds). -/
def elapsed_usec (start end_ : timeval) : ℤ :=
  (end_.tv_sec - start.tv_sec) * 1000000 + (end_.tv_usec - start.tv_usec)

/-! ## `std::chrono` durations -/

/-- A type `std::chrono::duration<Rep, std::ratio<num, den>>`: `Rep` is `double` or the
64-bit `long long`, the tick period is `num / den` seconds. -/
structure DurationType where
  isDouble : Bool
  num : ℕ
  den : ℕ

/-- The alias `time_milli_t`, `std::chrono::milliseconds`. -/
def time_milli_t : DurationType := ⟨false, 1, 1000⟩

/-- The alias `time_micro_t`, `std::chrono::microseconds`. -/
def time_micro_t : DurationType := ⟨false, 1, 1000000⟩

/-- The alias `time_nano_t`, `std::chrono::nanoseconds`. -/
def time_nano_t : DurationType := ⟨false, 1, 1000000000⟩

/-- The alias `dur_ms`, `std::chrono::duration<double, std::milli>`. -/
def dur_ms : DurationType := ⟨true, 1, 1000⟩

/-- The alias `dur_us`, `std::chrono::duration<double, std::micro>`. -/
def dur_us : DurationType := ⟨true, 1, 1000000⟩

/-- The alias `dur_ns`, `std::chrono::duration<double, std::nano>`. -/
def dur_ns : DurationType := ⟨true, 1, 1000000000⟩

/-- Modelled from the spec: the native duration type of `hrclock_t`
(`std::chrono::high_resolution_clock::duration`), declared by the standard library and
not by this repository; timestamps are integer nanosecond tick counts. -/
def hrclock_duration : DurationType := time_nano_t

/-- `static_cast` between the two representation types.  `long long → double` rounds,
`double → long long` truncates toward zero (reduced to 64 bits). -/
def static_cast (fromDouble toDouble : Bool) (x : ℚ) : ℚ :=
  match fromDouble, toDouble with
  | false, false => x
  | true, true => x
  | false, true => to_double x
  | true, false => (wrapSigned 64 (truncate x) : ℤ)

/-- Multiplication in the common representation type `CR` of a `duration_cast`. -/
def rep_mul (isDouble : Bool) (x y : ℚ) : ℚ :=
  if isDouble then to_double (x * y) else (wrapSigned 64 (truncate (x * y)) : ℤ)

/-- Division in the common representation type `CR` of a `duration_cast`; integer
division truncates toward zero. -/
def rep_div (isDouble : Bool) (x y : ℚ) : ℚ :=
  if isDouble then to_double (x / y) else (wrapSigned 64 (truncate (x / y)) : ℤ)

/-- `std::chrono::duration_cast<dst>(d)` for `d` of type `src` with `d.count() = count`,
as specified in [time.duration.cast]: with `CF = src.period / dst.period` in lowest
terms and `CR` the common type of both representations and `intmax_t`, the count is
converted directly, multiplied by `CF::num`, divided by `CF::den`, or both, in `CR`. -/
def duration_cast (src dst : DurationType) (count : ℚ) : ℚ :=
  let g := Nat.gcd (src.num * dst.den) (src.den * dst.num)
  let cf_num := src.num * dst.den / g
  let cf_den := src.den * dst.num / g
  let cr := src.isDouble || dst.isDouble
  if cf_num = 1 ∧ cf_den = 1 then
    static_cast src.isDouble dst.isDouble count
  else if cf_den = 1 then
    static_cast cr dst.isDouble
      (rep_mul cr (static_cast src.isDouble cr count) (static_cast false cr cf_num))
  else if cf_num = 1 then
    static_cast cr dst.isDouble
      (rep_div cr (static_cast src.isDouble cr count) (static_cast false cr cf_den))
  else
    static_cast cr dst.isDouble
      (rep_div cr (rep_mul cr (static_cast src.isDouble cr count) (static_cast false cr cf_num))
        (static_cast false cr cf_den))

/-- The expression `end - begin` on two time points of one clock: the difference of the
64-bit tick counts. -/
def time_point_sub (end_ begin : ℤ) : ℚ :=
  (wrapSigned 64 (end_ - begin) : ℤ)

/-- The macro `DURATION_TO_INTERVAL(delta, interval)`:
`(elapsed_t) std::chrono::duration_cast<interval>(delta).count()` with
`elapsed_t = double`; `src` is the type of the argument `delta`. -/
def DURATION_TO_INTERVAL (src : DurationType) (delta : ℚ) (interval : DurationType) : ℚ :=
  static_cast interval.isDouble true (duration_cast src interval delta)

/-- The macro `DURATION_TO_MS(delta)`. -/
def DURATION_TO_MS (src : DurationType) (delta : ℚ) : ℚ :=
  DURATION_TO_INTERVAL src delta time_milli_t

/-- The macro `DURATION_TO_US(delta)`. -/
def DURATION_TO_US (src : DurationType) (delta : ℚ) : ℚ :=
  DURATION_TO_INTERVAL src delta time_micro_t

/-- The macro `DURATION_TO_NS(delta)`. -/
def DURATION_TO_NS (src : DurationType) (delta : ℚ) : ℚ :=
  DURATION_TO_INTERVAL src delta time_nano_t

/-! ## The seven C++ demonstrations

Each function takes the two clock readings `begin` and `end` around `benchmark()` and
returns the value `ms` it prints. -/

/-- The function `demo_ms_verbose_ugly`. -/
def demo_ms_verbose_ugly (begin end_ : ℤ) : ℚ :=
  let delta_ms := duration_cast hrclock_duration dur_ms (time_point_sub end_ begin)
  let milliseconds := duration_cast dur_ms time_milli_t delta_ms
  static_cast false true milliseconds

/-- The function `demo_ms_verbose_bad`. -/
def demo_ms_verbose_bad (begin end_ : ℤ) : ℚ :=
  let delta_ms := duration_cast hrclock_duration dur_ms (time_point_sub end_ begin)
  let milliseconds := duration_cast dur_ms time_milli_t delta_ms
  static_cast false true milliseconds

/-- The function `demo_ms_verbose_auto_crap`: `auto delta_ms` is the clock's native
integer duration. -/
def demo_ms_verbose_auto_crap (begin end_ : ℤ) : ℚ :=
  let delta_ms := time_point_sub end_ begin
  let milliseconds := duration_cast hrclock_duration time_milli_t delta_ms
  static_cast false true milliseconds

/-- The function `demo_ms_verbose_auto_better`. -/
def demo_ms_verbose_auto_better (begin end_ : ℤ) : ℚ :=
  let delta_ms := time_point_sub end_ begin
  let milliseconds := duration_cast hrclock_duration time_milli_t delta_ms
  static_cast false true milliseconds

/-- The function `demo_ms_compact_good`. -/
def demo_ms_compact_good (begin end_ : ℤ) : ℚ :=
  let delta_ms := duration_cast hrclock_duration dur_ms (time_point_sub end_ begin)
  static_cast false true (duration_cast dur_ms time_milli_t delta_ms)

/-- The function `demo_ms_compact_better`. -/
def demo_ms_compact_better (begin end_ : ℤ) : ℚ :=
  let delta_ms := duration_cast hrclock_duration dur_ms (time_point_sub end_ begin)
  DURATION_TO_MS dur_ms delta_ms

/-- The function `demo_ms_compact_best`. -/
def demo_ms_compact_best (begin end_ : ℤ) : ℚ :=
  let delta_ms := duration_cast hrclock_duration dur_ms (time_point_sub end_ begin)
  DURATION_TO_MS dur_ms delta_ms

/-- The one computation the seven demonstrations are meant to implement: the interval
between two clock readings in whole milliseconds, the fraction discarded. -/
def elapsed_whole_ms (begin end_ : ℤ) : ℚ :=
  (Int.tdiv (end_ - begin) 1000000 : ℤ)

/-! ## Unit conversion demonstrations -/

/-- The three values printed by `dump_elapsed(ms, us, ns)`. -/
structure Elapsed where
  ms : ℚ
  us : ℚ
  ns : ℚ
deriving DecidableEq

/-- The function `dump_elapsed`: prints its three arguments. -/
def dump_elapsed (ms us ns : ℚ) : Elapsed :=
  { ms := ms, us := us, ns := ns }

/-- The function `demo_time_units_compact`. -/
def demo_time_units_compact (begin end_ : ℤ) : Elapsed :=
  let delta_ms := duration_cast hrclock_duration dur_ms (time_point_sub end_ begin)
  let ms := DURATION_TO_MS dur_ms delta_ms
  let us := DURATION_TO_US dur_ms delta_ms
  let ns := DURATION_TO_NS dur_ms delta_ms
  dump_elapsed ms us ns

/-- The function `demo_time_units_compare`: the two blocks it prints. -/
def demo_time_units_compare (begin end_ : ℤ) : Elapsed × Elapsed :=
  let delta_ms := duration_cast hrclock_duration dur_ms (time_point_sub end_ begin)
  let delta_us := duration_cast hrclock_duration dur_us (time_point_sub end_ begin)
  let delta_ns := duration_cast hrclock_duration dur_ns (time_point_sub end_ begin)
  let ms := DURATION_TO_MS dur_ms delta_ms
  let us := DURATION_TO_US dur_ms delta_ms
  let ns := DURATION_TO_NS dur_ms delta_ms
  let first := dump_elapsed ms us ns
  let us2 := DURATION_TO_US dur_us delta_us
  let ns2 := DURATION_TO_NS dur_ns delta_ns
  (first, dump_elapsed ms us2 ns2)

/-! ## Clock-period introspection -/

/-- The values printed by `dump_generic_clock_metrics`. -/
structure ClockMetrics where
  numerator : ℚ
  denominator : ℚ
  expected_quanta_s : ℚ
  expected_quanta_ns : ℚ
  actual_quanta_ns : ℚ
deriving DecidableEq

/-- The function `dump_generic_clock_metrics`; all arithmetic is in `double`. -/
def dump_generic_clock_metrics (numerator denominator actual_quanta_ns : ℚ) : ClockMetrics :=
  let expected_quanta_s := to_double (numerator / denominator)
  let expected_quanta_ms := to_double (expected_quanta_s * 1000)
  let expected_quanta_us := to_double (expected_quanta_ms * 1000)
  let expected_quanta_ns := to_double (expected_quanta_us * 1000)
  { numerator := numerator, denominator := denominator,
    expected_quanta_s := expected_quanta_s, expected_quanta_ns := expected_quanta_ns,
    actual_quanta_ns := actual_quanta_ns }

/-- One clock as `dump_timer_specs` sees it: the period `num / den` of its native integer
duration and two consecutive readings of `now()`. -/
structure ClockSample where
  period_num : ℕ
  period_den : ℕ
  start : ℤ
  end_ : ℤ

/-- One stanza of `dump_timer_specs`: the period converted to `double`, the difference
of the two readings through `DURATION_TO_NS`, then `dump_generic_clock_metrics`. -/
def dump_clock (c : ClockSample) : ClockMetrics :=
  let n := static_cast false true c.period_num
  let d := static_cast false true c.period_den
  let quanta := DURATION_TO_NS ⟨false, c.period_num, c.period_den⟩ (time_point_sub c.end_ c.start)
  dump_generic_clock_metrics n d quanta

/-- The function `dump_timer_specs`: the stanzas for the high-resolution, steady and
system clock. -/
def dump_timer_specs (hrc std sys : ClockSample) : List ClockMetrics :=
  [dump_clock hrc, dump_clock std, dump_clock sys]

/-! ## Rounding lemmas -/

theorem roundHalfEven_floor_le (x : ℚ) : ⌊x⌋ ≤ roundHalfEven x := by
  unfold roundHalfEven
  split_ifs <;> omega

theorem roundHalfEven_le_floor_add_one (x : ℚ) : roundHalfEven x ≤ ⌊x⌋ + 1 := by
  unfold roundHalfEven
  split_ifs <;> omega

theorem roundHalfEven_intCast (n : ℤ) : roundHalfEven (n : ℚ) = n := by
  unfold roundHalfEven
  simp

theorem le_roundHalfEven {n : ℤ} {x : ℚ} (h : (n : ℚ) ≤ x) : n ≤ roundHalfEven x :=
  le_trans (Int.le_floor.mpr h) (roundHalfEven_floor_le x)

theorem roundHalfEven_le {n : ℤ} {x : ℚ} (h : x ≤ (n : ℚ)) : roundHalfEven x ≤ n := by
  by_cases hx : x = (n : ℚ)
  · rw [hx, roundHalfEven_intCast]
  · have hlt : x < (n : ℚ) := lt_of_le_of_ne h hx
    have : ⌊x⌋ < n := Int.floor_lt.mpr hlt
    have := roundHalfEven_le_floor_add_one x
    omega

theorem roundHalfEven_sub_le (x : ℚ) : |(roundHalfEven x : ℚ) - x| ≤ 1 / 2 := by
  have h1 := Int.floor_le x
  have h2 := Int.lt_floor_add_one x
  unfold roundHalfEven
  split_ifs with ha hb hc
  · rw [abs_le]; constructor <;> linarith
  · rw [abs_le]; push_cast; constructor <;> linarith
  · rw [abs_le]; push_cast at *; constructor <;> linarith
  · rw [abs_le]; push_cast at *; constructor <;> linarith

theorem roundHalfEven_mono {x y : ℚ} (h : x ≤ y) : roundHalfEven x ≤ roundHalfEven y := by
  have hf : ⌊x⌋ ≤ ⌊y⌋ := Int.floor_le_floor h
  rcases lt_or_eq_of_le hf with hlt | heq
  · have := roundHalfEven_le_floor_add_one x
    have := roundHalfEven_floor_le y
    omega
  · unfold roundHalfEven
    rw [← heq]
    split_ifs <;> first | omega | (exfalso; linarith)

theorem roundHalfEven_neg (x : ℚ) : roundHalfEven (-x) = -roundHalfEven x := by
  by_cases hx : (⌊x⌋ : ℚ) = x
  · rw [← hx, ← Int.cast_neg, roundHalfEven_intCast, roundHalfEven_intCast]
  · have h1 := Int.floor_le x
    have h2 := Int.lt_floor_add_one x
    have hlt : (⌊x⌋ : ℚ) < x := lt_of_le_of_ne h1 hx
    have hfl : ⌊-x⌋ = -⌊x⌋ - 1 := by
      rw [Int.floor_eq_iff]
      push_cast
      constructor <;> linarith
    unfold roundHalfEven
    rw [hfl]
    push_cast
    split_ifs <;> first | omega | (exfalso; linarith)

/-! ### Binary exponent -/

theorem log2_eq_of_bounds {x : ℚ} {E : ℤ} (h1 : (2 : ℚ) ^ E ≤ x) (h2 : x < (2 : ℚ) ^ (E + 1)) :
    Int.log 2 x = E := by
  have hx : 0 < x := lt_of_lt_of_le (by positivity) h1
  have a : E ≤ Int.log 2 x :=
    (Int.zpow_le_iff_le_log (b := 2) (by norm_num) hx).mp (by simpa using h1)
  have b : Int.log 2 x < E + 1 :=
    (Int.lt_zpow_iff_log_lt (b := 2) (by norm_num) hx).mp (by simpa using h2)
  omega

theorem zpow_log2_le {x : ℚ} (hx : 0 < x) : (2 : ℚ) ^ Int.log 2 x ≤ x := by
  simpa using Int.zpow_log_le_self (b := 2) (by norm_num) hx

theorem lt_zpow_log2 (x : ℚ) : x < (2 : ℚ) ^ (Int.log 2 x + 1) := by
  simpa using Int.lt_zpow_succ_log_self (b := 2) (by norm_num) x

theorem ulpExp_eq_of_bounds (p : ℕ) {x : ℚ} {E : ℤ} (h1 : (2 : ℚ) ^ E ≤ |x|)
    (h2 : |x| < (2 : ℚ) ^ (E + 1)) : ulpExp p x = E - ((p : ℤ) - 1) := by
  unfold ulpExp
  rw [log2_eq_of_bounds h1 h2]

theorem ulpExp_neg (p : ℕ) (x : ℚ) : ulpExp p (-x) = ulpExp p x := by
  unfold ulpExp
  rw [abs_neg]

/-- The significand of a non-zero `x`, scaled by its unit in the last place, lies in
`[2^(p-1), 2^p)`. -/
theorem scaled_bounds (p : ℕ) (hp : 1 ≤ p) {x : ℚ} (hx : 0 < x) :
    ((2 ^ (p - 1) : ℤ) : ℚ) ≤ x / 2 ^ ulpExp p x ∧ x / 2 ^ ulpExp p x < ((2 ^ p : ℤ) : ℚ) := by
  have hpos : (0 : ℚ) < 2 ^ ulpExp p x := by positivity
  have h1 := zpow_log2_le hx
  have h2 := lt_zpow_log2 x
  have e1 : (2 : ℚ) ^ Int.log 2 x = 2 ^ (p - 1) * 2 ^ ulpExp p x := by
    unfold ulpExp
    rw [abs_of_pos hx, ← zpow_natCast, ← zpow_add₀ (by norm_num : (2 : ℚ) ≠ 0)]
    congr 1
    have : ((p - 1 : ℕ) : ℤ) = (p : ℤ) - 1 := by omega
    rw [this]; ring
  have e2 : (2 : ℚ) ^ (Int.log 2 x + 1) = 2 ^ p * 2 ^ ulpExp p x := by
    unfold ulpExp
    rw [abs_of_pos hx, ← zpow_natCast, ← zpow_add₀ (by norm_num : (2 : ℚ) ≠ 0)]
    congr 1
    ring
  rw [e1] at h1
  rw [e2] at h2
  push_cast
  constructor
  · rw [le_div_iff₀ hpos]; exact h1
  · rw [div_lt_iff₀ hpos]; exact h2

/-! ### `roundNE` -/

theorem roundNE_zero (p : ℕ) : roundNE p 0 = 0 := by
  simp [roundNE]

theorem roundNE_of_ne_zero (p : ℕ) {x : ℚ} (hx : x ≠ 0) :
    roundNE p x = (roundHalfEven (x / 2 ^ ulpExp p x) : ℚ) * 2 ^ ulpExp p x := by
  unfold roundNE
  rw [if_neg hx]

theorem roundNE_neg (p : ℕ) (x : ℚ) : roundNE p (-x) = -roundNE p x := by
  by_cases hx : x = 0
  · simp [hx, roundNE_zero]
  · rw [roundNE_of_ne_zero p hx, roundNE_of_ne_zero p (neg_ne_zero.mpr hx), ulpExp_neg,
      neg_div, roundHalfEven_neg]
    push_cast
    ring

/-- With the binade of `x` known, `roundNE` is rounding of the scaled significand. -/
theorem roundNE_eq_of_bounds (p : ℕ) {x : ℚ} {E : ℤ} (h1 : (2 : ℚ) ^ E ≤ |x|)
    (h2 : |x| < (2 : ℚ) ^ (E + 1)) :
    roundNE p x = (roundHalfEven (x / 2 ^ (E - ((p : ℤ) - 1))) : ℚ) * 2 ^ (E - ((p : ℤ) - 1)) := by
  have hx : x ≠ 0 := by
    intro h
    rw [h, abs_zero] at h1
    exact absurd h1 (not_le.mpr (by positivity))
  rw [roundNE_of_ne_zero p hx, ulpExp_eq_of_bounds p h1 h2]

theorem roundNE_nonneg (p : ℕ) {x : ℚ} (hx : 0 ≤ x) : 0 ≤ roundNE p x := by
  by_cases h0 : x = 0
  · rw [h0, roundNE_zero]
  · rw [roundNE_of_ne_zero p h0]
    have hq : ((0 : ℤ) : ℚ) ≤ x / 2 ^ ulpExp p x := by
      push_cast
      positivity
    have := le_roundHalfEven hq
    have h' : (0 : ℚ) ≤ (roundHalfEven (x / 2 ^ ulpExp p x) : ℚ) := by exact_mod_cast this
    positivity

/-- Numbers `m * 2^k` with `|m| < 2^p` are floating-point numbers: rounding is exact. -/
theorem roundNE_exact (p : ℕ) (m k : ℤ) (hm : |m| < 2 ^ p) :
    roundNE p ((m : ℚ) * 2 ^ k) = (m : ℚ) * 2 ^ k := by
  by_cases h0 : m = 0
  · simp [h0, roundNE_zero]
  have hm0 : (m : ℚ) ≠ 0 := by exact_mod_cast h0
  have hx : (m : ℚ) * 2 ^ k ≠ 0 := mul_ne_zero hm0 (by positivity)
  rw [roundNE_of_ne_zero p hx]
  obtain ⟨e, he⟩ : ∃ e, e = ulpExp p ((m : ℚ) * 2 ^ k) := ⟨_, rfl⟩
  rw [← he]
  have hek : e ≤ k := by
    have habs : |(m : ℚ) * 2 ^ k| < (2 : ℚ) ^ ((p : ℤ) + k) := by
      have hk : (0 : ℚ) < 2 ^ k := by positivity
      rw [abs_mul, abs_of_pos hk, zpow_add₀ (by norm_num : (2 : ℚ) ≠ 0)]
      apply mul_lt_mul_of_pos_right _ hk
      have : ((|m| : ℤ) : ℚ) < ((2 ^ p : ℤ) : ℚ) := by exact_mod_cast hm
      simpa using this
    have hlog : Int.log 2 |(m : ℚ) * 2 ^ k| < (p : ℤ) + k :=
      (Int.lt_zpow_iff_log_lt (b := 2) (by norm_num) (abs_pos.mpr hx)).mp (by simpa using habs)
    rw [he]
    unfold ulpExp
    omega
  obtain ⟨n, hn⟩ : ∃ n : ℕ, k = e + n := ⟨(k - e).toNat, by omega⟩
  have hdiv : (m : ℚ) * 2 ^ k / 2 ^ e = ((m * 2 ^ n : ℤ) : ℚ) := by
    have he0 : (2 : ℚ) ^ e ≠ 0 := by positivity
    rw [hn, zpow_add₀ (by norm_num : (2 : ℚ) ≠ 0), zpow_natCast]
    push_cast
    field_simp
    ring
  rw [hdiv, roundHalfEven_intCast, hn, zpow_add₀ (by norm_num : (2 : ℚ) ≠ 0), zpow_natCast]
  push_cast
  ring

/-- Integers of magnitude at most `2^p` are floating-point numbers. -/
theorem roundNE_intCast (p : ℕ) (hp : 1 ≤ p) (z : ℤ) (hz : |z| ≤ 2 ^ p) :
    roundNE p (z : ℚ) = z := by
  rcases lt_or_eq_of_le hz with hlt | heq
  · have := roundNE_exact p z 0 hlt
    simpa using this
  · have h2 : |(2 : ℤ) ^ (p - 1)| < 2 ^ p := by
      rw [abs_of_pos (by positivity)]
      exact pow_lt_pow_right₀ (by norm_num) (by omega)
    have key := roundNE_exact p (2 ^ (p - 1)) 1 h2
    have e : (((2 : ℤ) ^ (p - 1) : ℤ) : ℚ) * 2 ^ (1 : ℤ) = ((2 ^ p : ℤ) : ℚ) := by
      push_cast
      rw [zpow_one, ← pow_succ]
      congr 1
      omega
    rw [e] at key
    rcases abs_choice z with hz' | hz'
    · rw [hz'] at heq
      rw [heq]
      exact key
    · rw [hz'] at heq
      have : z = -(2 ^ p) := by omega
      rw [this]
      push_cast
      rw [roundNE_neg]
      push_cast at key
      rw [key]

theorem roundNE_mono_of_pos (p : ℕ) (hp : 1 ≤ p) {x y : ℚ} (hx : 0 < x) (h : x ≤ y) :
    roundNE p x ≤ roundNE p y := by
  have hy : 0 < y := lt_of_lt_of_le hx h
  rw [roundNE_of_ne_zero p hx.ne', roundNE_of_ne_zero p hy.ne']
  have hlog : Int.log 2 x ≤ Int.log 2 y := Int.log_mono_right hx h
  have hexy : ulpExp p x ≤ ulpExp p y := by
    unfold ulpExp
    rw [abs_of_pos hx, abs_of_pos hy]
    omega
  rcases lt_or_eq_of_le hexy with hlt | heq
  · obtain ⟨-, hxu⟩ := scaled_bounds p hp hx
    obtain ⟨hyl, -⟩ := scaled_bounds p hp hy
    have h1 : roundHalfEven (x / 2 ^ ulpExp p x) ≤ 2 ^ p := roundHalfEven_le hxu.le
    have h2 : 2 ^ (p - 1) ≤ roundHalfEven (y / 2 ^ ulpExp p y) := le_roundHalfEven hyl
    have h1' : (roundHalfEven (x / 2 ^ ulpExp p x) : ℚ) ≤ 2 ^ p := by exact_mod_cast h1
    have h2' : (2 : ℚ) ^ (p - 1) ≤ (roundHalfEven (y / 2 ^ ulpExp p y) : ℚ) := by
      exact_mod_cast h2
    have hpx : (0 : ℚ) < 2 ^ ulpExp p x := by positivity
    have hpy : (0 : ℚ) < 2 ^ ulpExp p y := by positivity
    have hstep : (2 : ℚ) ^ p * 2 ^ ulpExp p x ≤ 2 ^ (p - 1) * 2 ^ ulpExp p y := by
      rw [← zpow_natCast, ← zpow_natCast, ← zpow_add₀ (by norm_num : (2 : ℚ) ≠ 0),
        ← zpow_add₀ (by norm_num : (2 : ℚ) ≠ 0)]
      apply zpow_le_zpow_right₀ (by norm_num)
      have : ((p - 1 : ℕ) : ℤ) = (p : ℤ) - 1 := by omega
      omega
    calc (roundHalfEven (x / 2 ^ ulpExp p x) : ℚ) * 2 ^ ulpExp p x
        ≤ 2 ^ p * 2 ^ ulpExp p x := mul_le_mul_of_nonneg_right h1' hpx.le
      _ ≤ 2 ^ (p - 1) * 2 ^ ulpExp p y := hstep
      _ ≤ (roundHalfEven (y / 2 ^ ulpExp p y) : ℚ) * 2 ^ ulpExp p y :=
          mul_le_mul_of_nonneg_right h2' hpy.le
  · rw [heq]
    have hpy : (0 : ℚ) < 2 ^ ulpExp p y := by positivity
    have hdiv : x / 2 ^ ulpExp p y ≤ y / 2 ^ ulpExp p y := div_le_div_of_nonneg_right h hpy.le
    have := roundHalfEven_mono hdiv
    have h' : (roundHalfEven (x / 2 ^ ulpExp p y) : ℚ) ≤ (roundHalfEven (y / 2 ^ ulpExp p y) : ℚ) := by
      exact_mod_cast this
    exact mul_le_mul_of_nonneg_right h' hpy.le

theorem roundNE_nonpos (p : ℕ) {x : ℚ} (hx : x ≤ 0) : roundNE p x ≤ 0 := by
  have h := roundNE_nonneg p (neg_nonneg.mpr hx)
  rw [roundNE_neg] at h
  linarith

/-- Rounding to nearest is monotone. -/
theorem roundNE_mono (p : ℕ) (hp : 1 ≤ p) {x y : ℚ} (h : x ≤ y) : roundNE p x ≤ roundNE p y := by
  rcases lt_trichotomy 0 x with hx | hx | hx
  · exact roundNE_mono_of_pos p hp hx h
  · rw [← hx] at h ⊢
    rw [roundNE_zero]
    exact roundNE_nonneg p h
  · rcases le_or_lt 0 y with hy | hy
    · exact le_trans (roundNE_nonpos p hx.le) (roundNE_nonneg p hy)
    · have hneg : -y ≤ -x := neg_le_neg h
      have := roundNE_mono_of_pos p hp (neg_pos.mpr hy) hneg
      rw [roundNE_neg, roundNE_neg] at this
      linarith

/-- Rounding error is at most half a unit in the last place: relative error `2^-p`. -/
theorem roundNE_abs_sub_le (p : ℕ) (hp : 1 ≤ p) (x : ℚ) :
    |roundNE p x - x| ≤ |x| / 2 ^ p := by
  have key : ∀ y : ℚ, 0 < y → |roundNE p y - y| ≤ y / 2 ^ p := by
    intro y hy
    rw [roundNE_of_ne_zero p hy.ne']
    obtain ⟨hl, -⟩ := scaled_bounds p hp hy
    have hpos : (0 : ℚ) < 2 ^ ulpExp p y := by positivity
    have herr := roundHalfEven_sub_le (y / 2 ^ ulpExp p y)
    have e : (roundHalfEven (y / 2 ^ ulpExp p y) : ℚ) * 2 ^ ulpExp p y - y
        = ((roundHalfEven (y / 2 ^ ulpExp p y) : ℚ) - y / 2 ^ ulpExp p y) * 2 ^ ulpExp p y := by
      field_simp
    rw [e, abs_mul, abs_of_pos hpos]
    have h2 : (2 : ℚ) ^ (p - 1) * 2 ^ ulpExp p y ≤ y := by
      rw [le_div_iff₀ hpos] at hl
      exact_mod_cast hl
    have hpp : (2 : ℚ) ^ p = 2 * 2 ^ (p - 1) := by
      rw [← pow_succ']
      congr 1
      omega
    rw [le_div_iff₀ (by positivity), hpp]
    have h3 : |(roundHalfEven (y / 2 ^ ulpExp p y) : ℚ) - y / 2 ^ ulpExp p y| * 2 ^ ulpExp p y
        ≤ 1 / 2 * 2 ^ ulpExp p y := mul_le_mul_of_nonneg_right herr hpos.le
    have h4 : (0 : ℚ) < 2 ^ (p - 1) := by positivity
    nlinarith
  rcases lt_trichotomy 0 x with hx | hx | hx
  · rw [abs_of_pos hx]
    exact key x hx
  · rw [← hx, roundNE_zero]
    simp
  · have := key (-x) (neg_pos.mpr hx)
    rw [roundNE_neg] at this
    rw [abs_of_neg hx, ← abs_neg]
    have e : -(roundNE p x - x) = -roundNE p x - -x := by ring
    rw [e]
    exact this

/-! ### `double` and `float` -/

theorem to_double_intCast (z : ℤ) (hz : |z| ≤ 2 ^ 53) : to_double (z : ℚ) = z :=
  roundNE_intCast 53 (by norm_num) z hz

theorem to_double_natCast (n : ℕ) (hn : n ≤ 2 ^ 53) : to_double (n : ℚ) = n := by
  have h := to_double_intCast (n : ℤ) (by rw [abs_of_nonneg (by positivity)]; exact_mod_cast hn)
  simpa using h

theorem to_double_mono {x y : ℚ} (h : x ≤ y) : to_double x ≤ to_double y :=
  roundNE_mono 53 (by norm_num) h

theorem to_double_neg (x : ℚ) : to_double (-x) = -to_double x :=
  roundNE_neg 53 x

theorem to_double_nonneg {x : ℚ} (hx : 0 ≤ x) : 0 ≤ to_double x :=
  roundNE_nonneg 53 hx

theorem to_double_abs_sub_le (x : ℚ) : |to_double x - x| ≤ |x| / 2 ^ 53 :=
  roundNE_abs_sub_le 53 (by norm_num) x

theorem truncate_of_nonneg {x : ℚ} (hx : 0 ≤ x) : truncate x = ⌊x⌋ := by
  unfold truncate
  rw [if_pos hx]

theorem truncate_intCast (z : ℤ) : truncate (z : ℚ) = z := by
  unfold truncate
  split_ifs <;> simp

theorem truncate_neg (x : ℚ) : truncate (-x) = -truncate x := by
  unfold truncate
  rcases lt_trichotomy 0 x with hx | hx | hx
  · rw [if_neg (by linarith), if_pos hx.le, Int.ceil_neg]
  · rw [← hx]; simp
  · rw [if_pos (by linarith), if_neg (by linarith), Int.floor_neg]

theorem wrapSigned_of_bounds (w : ℕ) (hw : 1 ≤ w) (z : ℤ) (h1 : -2 ^ (w - 1) ≤ z)
    (h2 : z < 2 ^ (w - 1)) : wrapSigned w z = z := by
  unfold wrapSigned
  have hpow : (2 : ℤ) ^ w = 2 * 2 ^ (w - 1) := by
    rw [← pow_succ']
    congr 1
    omega
  rw [hpow]
  have hp : (0 : ℤ) < 2 ^ (w - 1) := by positivity
  rw [Int.emod_eq_of_lt (by linarith) (by linarith)]
  ring

theorem wrapSigned_64 (z : ℤ) (h1 : -2 ^ 63 ≤ z) (h2 : z < 2 ^ 63) : wrapSigned 64 z = z :=
  wrapSigned_of_bounds 64 (by norm_num) z (by norm_num; linarith) (by norm_num; linarith)

/-- Dividing a tick count below `2^53` by a positive integer constant in `double` and
discarding the fraction gives the integer quotient: the rounding of the quotient never
reaches the next whole number. -/
theorem floor_to_double_div (d c : ℤ) (hd : 0 ≤ d) (hd2 : d < 2 ^ 53) (hc : 0 < c) :
    ⌊to_double ((d : ℚ) / c)⌋ = d / c := by
  have hcq : (0 : ℚ) < (c : ℚ) := by exact_mod_cast hc
  have hk1 : d / c * c ≤ d := Int.ediv_mul_le d hc.ne'
  have hk2 : d < (d / c + 1) * c := Int.lt_ediv_add_one_mul_self d hc
  have hk0 : 0 ≤ d / c := Int.ediv_nonneg hd hc.le
  have hkd : d / c ≤ d := Int.ediv_le_self c hd
  have hxk : ((d / c : ℤ) : ℚ) ≤ (d : ℚ) / c := by
    rw [le_div_iff₀ hcq]
    exact_mod_cast hk1
  have hxu : (d : ℚ) / c ≤ ((d / c : ℤ) : ℚ) + 1 - 1 / c := by
    rw [div_le_iff₀ hcq]
    have : (d : ℚ) + 1 ≤ (((d / c : ℤ) : ℚ) + 1) * c := by exact_mod_cast hk2
    have e : (((d / c : ℤ) : ℚ) + 1 - 1 / c) * c = (((d / c : ℤ) : ℚ) + 1) * c - 1 := by
      field_simp
    rw [e]
    linarith
  have hx0 : (0 : ℚ) ≤ (d : ℚ) / c := by positivity
  rw [Int.floor_eq_iff]
  constructor
  · have hexact : to_double ((d / c : ℤ) : ℚ) = ((d / c : ℤ) : ℚ) :=
      to_double_intCast _ (by rw [abs_of_nonneg hk0]; linarith)
    rw [← hexact]
    exact to_double_mono hxk
  · have herr := to_double_abs_sub_le ((d : ℚ) / c)
    rw [abs_of_nonneg hx0, abs_le] at herr
    have hsmall : (d : ℚ) / c / 2 ^ 53 < 1 / c := by
      rw [div_div, div_lt_div_iff₀ (by positivity) hcq]
      have : (d : ℚ) < 2 ^ 53 := by exact_mod_cast hd2
      nlinarith
    linarith [herr.2]

/-! ### `duration_cast` at the types used by the program -/

theorem duration_cast_hr_dur_ms (c : ℚ) :
    duration_cast hrclock_duration dur_ms c = to_double (to_double c / 1000000) := by
  have h : to_double ((1000000 : ℕ) : ℚ) = ((1000000 : ℕ) : ℚ) :=
    to_double_natCast 1000000 (by norm_num)
  simp [duration_cast, hrclock_duration, time_nano_t, dur_ms, static_cast, rep_div] at h ⊢
  rw [h]

theorem duration_cast_hr_dur_us (c : ℚ) :
    duration_cast hrclock_duration dur_us c = to_double (to_double c / 1000) := by
  have h : to_double ((1000 : ℕ) : ℚ) = ((1000 : ℕ) : ℚ) :=
    to_double_natCast 1000 (by norm_num)
  simp [duration_cast, hrclock_duration, time_nano_t, dur_us, static_cast, rep_div] at h ⊢
  rw [h]

theorem duration_cast_hr_dur_ns (c : ℚ) :
    duration_cast hrclock_duration dur_ns c = to_double c := by
  simp [duration_cast, hrclock_duration, time_nano_t, dur_ns, static_cast]

theorem duration_cast_hr_milli (c : ℚ) :
    duration_cast hrclock_duration time_milli_t c
      = (wrapSigned 64 (truncate (c / 1000000)) : ℤ) := by
  simp [duration_cast, hrclock_duration, time_nano_t, time_milli_t, static_cast, rep_div]

theorem duration_cast_hr_nano (c : ℚ) :
    duration_cast hrclock_duration time_nano_t c = c := by
  simp [duration_cast, hrclock_duration, time_nano_t, static_cast]

theorem duration_cast_dur_ms_milli (x : ℚ) :
    duration_cast dur_ms time_milli_t x = (wrapSigned 64 (truncate x) : ℤ) := by
  simp [duration_cast, dur_ms, time_milli_t, static_cast]

theorem duration_cast_dur_ms_micro (x : ℚ) :
    duration_cast dur_ms time_micro_t x
      = (wrapSigned 64 (truncate (to_double (x * 1000))) : ℤ) := by
  have h : to_double ((1000 : ℕ) : ℚ) = ((1000 : ℕ) : ℚ) :=
    to_double_natCast 1000 (by norm_num)
  simp [duration_cast, dur_ms, time_micro_t, static_cast, rep_mul] at h ⊢
  rw [h]

theorem duration_cast_dur_ms_nano (x : ℚ) :
    duration_cast dur_ms time_nano_t x
      = (wrapSigned 64 (truncate (to_double (x * 1000000))) : ℤ) := by
  have h : to_double ((1000000 : ℕ) : ℚ) = ((1000000 : ℕ) : ℚ) :=
    to_double_natCast 1000000 (by norm_num)
  simp [duration_cast, dur_ms, time_nano_t, static_cast, rep_mul] at h ⊢
  rw [h]

theorem duration_cast_dur_us_micro (x : ℚ) :
    duration_cast dur_us time_micro_t x = (wrapSigned 64 (truncate x) : ℤ) := by
  simp [duration_cast, dur_us, time_micro_t, static_cast]

theorem duration_cast_dur_ns_nano (x : ℚ) :
    duration_cast dur_ns time_nano_t x = (wrapSigned 64 (truncate x) : ℤ) := by
  simp [duration_cast, dur_ns, time_nano_t, static_cast]

/-! ### The millisecond pipelines -/

theorem time_point_sub_eq (begin end_ : ℤ) (h1 : -2 ^ 63 ≤ end_ - begin)
    (h2 : end_ - begin < 2 ^ 63) : time_point_sub end_ begin = ((end_ - begin : ℤ) : ℚ) := by
  unfold time_point_sub
  rw [wrapSigned_64 _ h1 h2]

/-- The `double` pipeline `long long → dur_ms → milliseconds → double` on a non-negative
tick count below `2^53`. -/
theorem ms_double_path_nonneg (d : ℤ) (hd : 0 ≤ d) (hd2 : d < 2 ^ 53) :
    to_double ((wrapSigned 64 (truncate (to_double (to_double (d : ℚ) / 1000000))) : ℤ) : ℚ)
      = ((d / 1000000 : ℤ) : ℚ) := by
  rw [to_double_intCast d (by rw [abs_of_nonneg hd]; linarith)]
  have hq : (0 : ℚ) ≤ (d : ℚ) / 1000000 := by positivity
  have hfl := floor_to_double_div d 1000000 hd hd2 (by norm_num)
  push_cast at hfl
  rw [truncate_of_nonneg (to_double_nonneg hq), hfl]
  have hk0 : 0 ≤ d / 1000000 := Int.ediv_nonneg hd (by norm_num)
  have hkd : d / 1000000 ≤ d := Int.ediv_le_self _ hd
  rw [wrapSigned_64 _ (by linarith) (by linarith)]
  exact to_double_intCast _ (by rw [abs_of_nonneg hk0]; linarith)

/-- The `double` pipeline on any tick count of magnitude below `2^53`: the quotient by
`10^6` truncated toward zero. -/
theorem ms_double_path (d : ℤ) (h1 : -2 ^ 53 < d) (h2 : d < 2 ^ 53) :
    to_double ((wrapSigned 64 (truncate (to_double (to_double (d : ℚ) / 1000000))) : ℤ) : ℚ)
      = ((Int.tdiv d 1000000 : ℤ) : ℚ) := by
  rcases le_or_lt 0 d with hd | hd
  · rw [ms_double_path_nonneg d hd h2, Int.tdiv_eq_ediv hd (by norm_num)]
  · have hpos := ms_double_path_nonneg (-d) (by linarith) (by linarith)
    have e1 : ((d : ℤ) : ℚ) = -(((-d : ℤ)) : ℚ) := by push_cast; ring
    have hk0 : 0 ≤ (-d) / 1000000 := Int.ediv_nonneg (by linarith) (by norm_num)
    have hkd : (-d) / 1000000 ≤ -d := Int.ediv_le_self _ (by linarith)
    have hfl : truncate (to_double (to_double ((-d : ℤ) : ℚ) / 1000000)) = (-d) / 1000000 := by
      rw [to_double_intCast (-d) (by rw [abs_of_nonneg (by linarith)]; linarith)]
      have hq : (0 : ℚ) ≤ ((-d : ℤ) : ℚ) / 1000000 := by
        have : (0 : ℚ) ≤ ((-d : ℤ) : ℚ) := by exact_mod_cast (by linarith : 0 ≤ -d)
        positivity
      have hfl := floor_to_double_div (-d) 1000000 (by linarith) (by linarith) (by norm_num)
      push_cast at hfl
      rw [truncate_of_nonneg (to_double_nonneg hq)]
      push_cast
      exact hfl
    rw [e1, to_double_neg, neg_div, to_double_neg, truncate_neg, hfl,
      wrapSigned_64 _ (by linarith) (by linarith)]
    have htd : Int.tdiv d 1000000 = -((-d) / 1000000) := by
      have : d = -(-d) := by ring
      rw [this, Int.neg_tdiv, Int.tdiv_eq_ediv (by linarith) (by norm_num)]
      simp
    rw [htd]
    push_cast
    rw [to_double_neg]
    congr 1
    have := to_double_intCast ((-d) / 1000000) (by rw [abs_of_nonneg hk0]; linarith)
    push_cast at this
    exact this

/-! ### Evaluating the rounding at concrete numbers -/

theorem roundHalfEven_eq_of_floor (x : ℚ) (f : ℤ) (hf : ⌊x⌋ = f) :
    roundHalfEven x = if x - f < 1 / 2 then f else if 1 / 2 < x - f then f + 1
      else if f % 2 = 0 then f else f + 1 := by
  unfold roundHalfEven
  rw [hf]

theorem roundNE_eval (p : ℕ) (x : ℚ) (E m : ℤ) (h1 : (2 : ℚ) ^ E ≤ |x|)
    (h2 : |x| < (2 : ℚ) ^ (E + 1)) (hm : roundHalfEven (x / 2 ^ (E - ((p : ℤ) - 1))) = m) :
    roundNE p x = (m : ℚ) * 2 ^ (E - ((p : ℤ) - 1)) := by
  rw [roundNE_eq_of_bounds p h1 h2, hm]

/-! ### The seven demonstrations as functions of the tick difference -/

theorem static_cast_int_double (x : ℚ) : static_cast false true x = to_double x := rfl

theorem DURATION_TO_MS_dur_ms (x : ℚ) :
    DURATION_TO_MS dur_ms x = to_double ((wrapSigned 64 (truncate x) : ℤ) : ℚ) := by
  unfold DURATION_TO_MS DURATION_TO_INTERVAL
  rw [duration_cast_dur_ms_milli]
  rfl

theorem demo_ms_verbose_ugly_eq (begin end_ : ℤ) :
    demo_ms_verbose_ugly begin end_ = to_double ((wrapSigned 64 (truncate
      (to_double (to_double (time_point_sub end_ begin) / 1000000))) : ℤ) : ℚ) := by
  unfold demo_ms_verbose_ugly
  simp only [duration_cast_hr_dur_ms, duration_cast_dur_ms_milli, static_cast_int_double]

theorem demo_ms_verbose_bad_eq (begin end_ : ℤ) :
    demo_ms_verbose_bad begin end_ = to_double ((wrapSigned 64 (truncate
      (to_double (to_double (time_point_sub end_ begin) / 1000000))) : ℤ) : ℚ) := by
  unfold demo_ms_verbose_bad
  simp only [duration_cast_hr_dur_ms, duration_cast_dur_ms_milli, static_cast_int_double]

theorem demo_ms_compact_good_eq (begin end_ : ℤ) :
    demo_ms_compact_good begin end_ = to_double ((wrapSigned 64 (truncate
      (to_double (to_double (time_point_sub end_ begin) / 1000000))) : ℤ) : ℚ) := by
  unfold demo_ms_compact_good
  simp only [duration_cast_hr_dur_ms, duration_cast_dur_ms_milli, static_cast_int_double]

theorem demo_ms_compact_better_eq (begin end_ : ℤ) :
    demo_ms_compact_better begin end_ = to_double ((wrapSigned 64 (truncate
      (to_double (to_double (time_point_sub end_ begin) / 1000000))) : ℤ) : ℚ) := by
  unfold demo_ms_compact_better
  simp only [duration_cast_hr_dur_ms, DURATION_TO_MS_dur_ms]

theorem demo_ms_compact_best_eq (begin end_ : ℤ) :
    demo_ms_compact_best begin end_ = to_double ((wrapSigned 64 (truncate
      (to_double (to_double (time_point_sub end_ begin) / 1000000))) : ℤ) : ℚ) := by
  unfold demo_ms_compact_best
  simp only [duration_cast_hr_dur_ms, DURATION_TO_MS_dur_ms]

theorem demo_ms_verbose_auto_crap_eq (begin end_ : ℤ) :
    demo_ms_verbose_auto_crap begin end_ = to_double ((wrapSigned 64 (truncate
      (time_point_sub end_ begin / 1000000)) : ℤ) : ℚ) := by
  unfold demo_ms_verbose_auto_crap
  simp only [duration_cast_hr_milli, static_cast_int_double]

theorem demo_ms_verbose_auto_better_eq (begin end_ : ℤ) :
    demo_ms_verbose_auto_better begin end_ = to_double ((wrapSigned 64 (truncate
      (time_point_sub end_ begin / 1000000)) : ℤ) : ℚ) := by
  unfold demo_ms_verbose_auto_better
  simp only [duration_cast_hr_milli, static_cast_int_double]

/-- The rounding that breaks the millisecond value on very long intervals: the tick count
`9007199254999999 > 2^53` is no `double`; it lies midway between two and is rounded up
to the even one, a whole number of milliseconds. -/
theorem to_double_9007199254999999 :
    to_double (9007199254999999 : ℚ) = 9007199255000000 := by
  unfold to_double
  rw [roundNE_eval 53 9007199254999999 53 4503599627500000 (by norm_num [abs_of_pos])
    (by norm_num [abs_of_pos])
    (by
      rw [roundHalfEven_eq_of_floor _ 4503599627499999 (by rw [Int.floor_eq_iff]; norm_num)]
      norm_num)]
  norm_num

/-- The `double` pipeline on the tick difference `9007199254999999`. -/
theorem ms_double_path_long :
    to_double ((wrapSigned 64 (truncate
      (to_double (to_double (time_point_sub 9007199254999999 0) / 1000000))) : ℤ) : ℚ)
      = 9007199255 := by
  rw [time_point_sub_eq 0 _ (by norm_num) (by norm_num)]
  have e1 : (((9007199254999999 - 0 : ℤ) : ℤ) : ℚ) = (9007199254999999 : ℚ) := by norm_num
  have e2 : (9007199255000000 : ℚ) / 1000000 = ((9007199255 : ℤ) : ℚ) := by norm_num
  rw [e1, to_double_9007199254999999, e2, to_double_intCast 9007199255 (by norm_num),
    truncate_intCast, wrapSigned_64 _ (by norm_num) (by norm_num),
    to_double_intCast 9007199255 (by norm_num)]
  norm_num

/-- The integer pipeline `long long → milliseconds → double` on a non-negative tick count
in the 64-bit range. -/
theorem ms_int_path_nonneg (d : ℤ) (hd : 0 ≤ d) (hd2 : d < 2 ^ 63) :
    to_double ((wrapSigned 64 (truncate ((d : ℚ) / 1000000)) : ℤ) : ℚ)
      = ((d / 1000000 : ℤ) : ℚ) := by
  have hq : (0 : ℚ) ≤ (d : ℚ) / 1000000 := by positivity
  have hfl : ⌊(d : ℚ) / 1000000⌋ = d / 1000000 := by
    have := Rat.floor_intCast_div_natCast d 1000000
    push_cast at this
    exact this
  have hk0 : 0 ≤ d / 1000000 := Int.ediv_nonneg hd (by norm_num)
  have hk : d / 1000000 < 2 ^ 53 := by
    norm_num at hd2 ⊢
    omega
  rw [truncate_of_nonneg hq, hfl, wrapSigned_64 _ (by linarith) (by linarith)]
  exact to_double_intCast _ (by rw [abs_of_nonneg hk0]; linarith)

theorem one_second_bounds (d e : ℤ) (h1 : 10 ^ 9 ≤ d) (h2 : d < 10 ^ 9 + e * 10 ^ 6) :
    (1000 : ℚ) ≤ ((d / 1000000 : ℤ) : ℚ) ∧ ((d / 1000000 : ℤ) : ℚ) < 1000 + (e : ℚ) := by
  have a : 1000 ≤ d / 1000000 := by
    norm_num at h1
    omega
  have b : d / 1000000 < 1000 + e := by
    norm_num at h1 h2
    omega
  exact ⟨by exact_mod_cast a, by exact_mod_cast b⟩

/-! ## C1: elapsed milliseconds -/

/-- C1 (as amended): for clock readings `begin ≤ end` less than `2^53` ns apart, the value
printed by `demo_ms_compact_best` is the whole number `(end - begin) / 10^6`: it is
non-negative and `ms * 10^6 ≤ end - begin < (ms + 1) * 10^6`. -/
theorem demo_ms_compact_best_truncates (begin end_ : ℤ) (h : begin ≤ end_)
    (hr : end_ - begin < 2 ^ 53) :
    demo_ms_compact_best begin end_ = (((end_ - begin) / 1000000 : ℤ) : ℚ)
      ∧ 0 ≤ demo_ms_compact_best begin end_
      ∧ demo_ms_compact_best begin end_ * 1000000 ≤ ((end_ - begin : ℤ) : ℚ)
      ∧ ((end_ - begin : ℤ) : ℚ) < (demo_ms_compact_best begin end_ + 1) * 1000000 := by
  have hd : 0 ≤ end_ - begin := by linarith
  have hval : demo_ms_compact_best begin end_ = (((end_ - begin) / 1000000 : ℤ) : ℚ) := by
    rw [demo_ms_compact_best_eq, time_point_sub_eq begin end_ (by linarith) (by linarith),
      ms_double_path_nonneg _ hd hr]
  have hk0 : 0 ≤ (end_ - begin) / 1000000 := Int.ediv_nonneg hd (by norm_num)
  have hk1 : (end_ - begin) / 1000000 * 1000000 ≤ end_ - begin :=
    Int.ediv_mul_le _ (by norm_num)
  have hk2 : end_ - begin < ((end_ - begin) / 1000000 + 1) * 1000000 :=
    Int.lt_ediv_add_one_mul_self _ (by norm_num)
  rw [hval]
  refine ⟨rfl, ?_, ?_, ?_⟩
  · exact_mod_cast hk0
  · exact_mod_cast hk1
  · exact_mod_cast hk2

/-- C1, witness: readings one second and half a millisecond apart. -/
theorem demo_ms_compact_best_truncates_witness :
    (0 : ℤ) ≤ 1000500000 ∧ (1000500000 : ℤ) - 0 < 2 ^ 53
      ∧ demo_ms_compact_best 0 1000500000 = ((((1000500000 : ℤ) - 0) / 1000000 : ℤ) : ℚ) :=
  ⟨by decide, by decide,
    (demo_ms_compact_best_truncates 0 1000500000 (by decide) (by decide)).1⟩

/-- C1, counterexample to the claim as stated (all `begin ≤ end`): for readings
`9007199254999999` ns apart the printed value is `9007199255`, and
`9007199255 * 10^6` exceeds the interval. -/
theorem demo_ms_compact_best_overshoots :
    (0 : ℤ) ≤ 9007199254999999
      ∧ ¬ (demo_ms_compact_best 0 9007199254999999 * 1000000
            ≤ (((9007199254999999 : ℤ) - 0 : ℤ) : ℚ)) := by
  rw [demo_ms_compact_best_eq, ms_double_path_long]
  norm_num

/-! ## C2: the one-second wait, C++ variants -/

/-- C2 (as amended): when the measured interval of the one-second wait satisfies
`1 s ≤ end - begin < 1 s + e ms`, the five demonstrations that go through `dur_ms` report
`1000 ≤ ms < 1000 + e` for every tolerance `e ≤ 9007198254` ms (intervals below `2^53`
ns), and the two `auto` demonstrations do so for every tolerance as long as the tick
difference fits the clock's 64-bit count. -/
theorem demo_ms_one_second_tolerance (begin end_ e : ℤ) (h1 : 10 ^ 9 ≤ end_ - begin)
    (h2 : end_ - begin < 10 ^ 9 + e * 10 ^ 6) :
    (e ≤ 9007198254 →
      (1000 ≤ demo_ms_verbose_ugly begin end_ ∧ demo_ms_verbose_ugly begin end_ < 1000 + e)
      ∧ (1000 ≤ demo_ms_verbose_bad begin end_ ∧ demo_ms_verbose_bad begin end_ < 1000 + e)
      ∧ (1000 ≤ demo_ms_compact_good begin end_ ∧ demo_ms_compact_good begin end_ < 1000 + e)
      ∧ (1000 ≤ demo_ms_compact_better begin end_
          ∧ demo_ms_compact_better begin end_ < 1000 + e)
      ∧ (1000 ≤ demo_ms_compact_best begin end_ ∧ demo_ms_compact_best begin end_ < 1000 + e))
    ∧ (end_ - begin < 2 ^ 63 →
      (1000 ≤ demo_ms_verbose_auto_crap begin end_
          ∧ demo_ms_verbose_auto_crap begin end_ < 1000 + e)
      ∧ (1000 ≤ demo_ms_verbose_auto_better begin end_
          ∧ demo_ms_verbose_auto_better begin end_ < 1000 + e)) := by
  have hd : 0 ≤ end_ - begin := by
    norm_num at h1
    linarith
  have hb := one_second_bounds (end_ - begin) e h1 h2
  constructor
  · intro he
    have hr : end_ - begin < 2 ^ 53 := by
      norm_num at h2 ⊢
      linarith
    have hsub := time_point_sub_eq begin end_ (by linarith) (by linarith)
    have hv := ms_double_path_nonneg _ hd hr
    rw [demo_ms_verbose_ugly_eq, demo_ms_verbose_bad_eq, demo_ms_compact_good_eq,
      demo_ms_compact_better_eq, demo_ms_compact_best_eq, hsub, hv]
    exact ⟨hb, hb, hb, hb, hb⟩
  · intro hr
    have hsub := time_point_sub_eq begin end_ (by linarith) hr
    have hv := ms_int_path_nonneg _ hd hr
    rw [demo_ms_verbose_auto_crap_eq, demo_ms_verbose_auto_better_eq, hsub, hv]
    exact ⟨hb, hb⟩

/-- C2, witness: a wait measured as 1.0005 s with a tolerance of one millisecond. -/
theorem demo_ms_one_second_tolerance_witness :
    (10 : ℤ) ^ 9 ≤ 1000500000 - 0 ∧ (1000500000 : ℤ) - 0 < 10 ^ 9 + 1 * 10 ^ 6
      ∧ (1000 ≤ demo_ms_verbose_ugly 0 1000500000
          ∧ demo_ms_verbose_ugly 0 1000500000 < 1000 + ((1 : ℤ) : ℚ)) :=
  ⟨by decide, by decide,
    ((demo_ms_one_second_tolerance 0 1000500000 1 (by decide) (by decide)).1 (by decide)).1⟩

/-- C2, counterexample to the claim as stated (every tolerance): with `e = 9007198255` ms
and an interval of `9007199254999999` ns, inside `[1 s, 1 s + e ms)`, the value printed by
`demo_ms_verbose_ugly` is `9007199255 = 1000 + e`, not below `1000 + e`. -/
theorem demo_ms_verbose_ugly_exceeds_tolerance :
    (0 : ℤ) ≤ 9007198255 ∧ (10 : ℤ) ^ 9 ≤ 9007199254999999 - 0
      ∧ (9007199254999999 : ℤ) - 0 < 10 ^ 9 + 9007198255 * 10 ^ 6
      ∧ ¬ (demo_ms_verbose_ugly 0 9007199254999999 < 1000 + ((9007198255 : ℤ) : ℚ)) := by
  rw [demo_ms_verbose_ugly_eq, ms_double_path_long]
  norm_num

/-! ### The `float` product of `demo_c_time` -/

theorem to_float_intCast (z : ℤ) (hz : |z| ≤ 2 ^ 24) : to_float (z : ℚ) = z :=
  roundNE_intCast 24 (by norm_num) z hz

/-- Whole seconds times `1000.f` is exact in `float` up to `134218` seconds. -/
theorem to_float_mul_1000 (z : ℤ) (hz : |z| ≤ 134218) :
    to_float ((z : ℚ) * 1000) = (z : ℚ) * 1000 := by
  unfold to_float
  by_cases h : |z| ≤ 134217
  · have key := roundNE_exact 24 (125 * z) 3 (by
      rw [abs_mul, abs_of_pos (by norm_num : (0 : ℤ) < 125)]
      norm_num
      linarith)
    have e : ((125 * z : ℤ) : ℚ) * 2 ^ (3 : ℤ) = (z : ℚ) * 1000 := by
      push_cast
      norm_num
      ring
    rw [e] at key
    exact key
  · have h8 : |z| = 134218 := by omega
    obtain ⟨y, hy⟩ : ∃ y : ℤ, z = 2 * y ∧ |y| = 67109 := by
      rcases abs_choice z with hz' | hz'
      · exact ⟨67109, by omega, by norm_num⟩
      · exact ⟨-67109, by omega, by norm_num⟩
    have key := roundNE_exact 24 (125 * y) 4 (by
      rw [abs_mul, abs_of_pos (by norm_num : (0 : ℤ) < 125), hy.2]
      norm_num)
    have e : ((125 * y : ℤ) : ℚ) * 2 ^ (4 : ℤ) = (z : ℚ) * 1000 := by
      rw [hy.1]
      push_cast
      norm_num
      ring
    rw [e] at key
    exact key

/-- For readings at most `134218` whole seconds apart `demo_c_time` prints exactly
`1000 * (end.tv_sec - start.tv_sec)`. -/
theorem demo_c_time_eq (long_bits : ℕ) (hw : 32 ≤ long_bits) (start end_ : timeval)
    (h : |end_.tv_sec - start.tv_sec| ≤ 134218) :
    demo_c_time long_bits start end_ = 1000 * ((end_.tv_sec - start.tv_sec : ℤ) : ℚ) := by
  unfold demo_c_time
  have hb := abs_le.mp h
  have hpow : (2 : ℤ) ^ 31 ≤ 2 ^ (long_bits - 1) :=
    pow_le_pow_right₀ (by norm_num) (by omega)
  rw [wrapSigned_of_bounds long_bits (by omega) _ (by norm_num at hpow; linarith [hb.1])
    (by norm_num at hpow; linarith [hb.2])]
  simp only []
  rw [to_float_intCast _ (by norm_num; linarith), to_float_mul_1000 _ h]
  have e : ((end_.tv_sec - start.tv_sec : ℤ) : ℚ) * 1000
      = ((1000 * (end_.tv_sec - start.tv_sec) : ℤ) : ℚ) := by
    push_cast
    ring
  rw [e, to_double_intCast _ (by
    rw [abs_mul, abs_of_pos (by norm_num : (0 : ℤ) < 1000)]
    norm_num
    linarith)]
  push_cast
  ring

/-! ## C3: the one-second wait, plain C variant -/

/-- What `demo_c_time` prints for a wait of one to two seconds, with `tv_usec` in
`0..999999`: since line 114 never reads `tv_usec`, the value is `1000` only when
`start.tv_usec ≤ end.tv_usec`; when the wait crosses two second boundaries it is `2000`,
however little the wait exceeds one second. -/
theorem demo_c_time_one_second (long_bits : ℕ) (hw : 32 ≤ long_bits) (start end_ : timeval)
    (e : ℤ) (he : e ≤ 1000)
    (hs : 0 ≤ start.tv_usec ∧ start.tv_usec ≤ 999999)
    (hn : 0 ≤ end_.tv_usec ∧ end_.tv_usec ≤ 999999)
    (h1 : 1000000 ≤ elapsed_usec start end_)
    (h2 : elapsed_usec start end_ < 1000000 + e * 1000) :
    demo_c_time long_bits start end_
      = if start.tv_usec ≤ end_.tv_usec then 1000 else 2000 := by
  unfold elapsed_usec at h1 h2
  have hd : end_.tv_sec - start.tv_sec = 1 ∨ end_.tv_sec - start.tv_sec = 2 := by omega
  rw [demo_c_time_eq long_bits hw start end_ (by
    rcases hd with h | h <;> rw [h] <;> norm_num)]
  split_ifs with hu
  · have : end_.tv_sec - start.tv_sec = 1 := by omega
    rw [this]
    norm_num
  · have : end_.tv_sec - start.tv_sec = 2 := by omega
    rw [this]
    norm_num

/-- A wait from 0.25 s to 1.255 s on the wall clock: `demo_c_time` prints `1000`. -/
theorem demo_c_time_one_second_witness :
    1000000 ≤ elapsed_usec ⟨0, 250000⟩ ⟨1, 255000⟩
      ∧ elapsed_usec ⟨0, 250000⟩ ⟨1, 255000⟩ < 1000000 + 10 * 1000
      ∧ demo_c_time 32 ⟨0, 250000⟩ ⟨1, 255000⟩
        = if (⟨0, 250000⟩ : timeval).tv_usec ≤ (⟨1, 255000⟩ : timeval).tv_usec
          then 1000 else 2000 :=
  ⟨by decide, by decide,
    demo_c_time_one_second 32 (by decide) ⟨0, 250000⟩ ⟨1, 255000⟩ 10 (by decide)
      (by decide) (by decide) (by decide) (by decide)⟩

/-- C3 (defect of the code): from 0.999999 s to 2.000000 s on the wall clock the true
elapsed time is 1.000001 s, within 10 ms above one second, where the claim requires
`1000 ≤ ms < 1000 + 10`; `demo_c_time` prints `2000`, because it never reads `tv_usec`.
The source's own sample output and the C++ variants give `1000` for such a wait. -/
theorem demo_c_time_two_boundaries :
    1000000 ≤ elapsed_usec ⟨0, 999999⟩ ⟨2, 0⟩
      ∧ elapsed_usec ⟨0, 999999⟩ ⟨2, 0⟩ < 1000000 + 10 * 1000
      ∧ ¬ (demo_c_time 32 ⟨0, 999999⟩ ⟨2, 0⟩ < 1000 + 10) := by
  rw [demo_c_time_eq 32 (by norm_num) _ _ (by norm_num)]
  refine ⟨by decide, by decide, ?_⟩
  norm_num

/-! ### Floating-point numbers and the gap below one -/

/-- The result of a rounding is a floating-point number: rounding it again changes
nothing. -/
theorem roundNE_idem (p : ℕ) (hp : 1 ≤ p) (x : ℚ) : roundNE p (roundNE p x) = roundNE p x := by
  have key : ∀ y : ℚ, 0 < y → roundNE p (roundNE p y) = roundNE p y := by
    intro y hy
    rw [roundNE_of_ne_zero p hy.ne']
    obtain ⟨hl, hu⟩ := scaled_bounds p hp hy
    have h1 : roundHalfEven (y / 2 ^ ulpExp p y) ≤ 2 ^ p := roundHalfEven_le hu.le
    have h2 : 2 ^ (p - 1) ≤ roundHalfEven (y / 2 ^ ulpExp p y) := le_roundHalfEven hl
    have h0 : (0 : ℤ) < 2 ^ (p - 1) := by positivity
    rcases lt_or_eq_of_le h1 with hlt | heq
    · exact roundNE_exact p _ _ (by rw [abs_of_pos (by linarith)]; exact hlt)
    · rw [heq]
      have h2p : |(2 : ℤ) ^ (p - 1)| < 2 ^ p := by
        rw [abs_of_pos h0]
        exact pow_lt_pow_right₀ (by norm_num) (by omega)
      have := roundNE_exact p (2 ^ (p - 1)) (ulpExp p y + 1) h2p
      have e : (((2 : ℤ) ^ (p - 1) : ℤ) : ℚ) * 2 ^ (ulpExp p y + 1)
          = (((2 : ℤ) ^ p : ℤ) : ℚ) * 2 ^ ulpExp p y := by
        rw [zpow_add₀ (by norm_num : (2 : ℚ) ≠ 0), zpow_one]
        push_cast
        have : (2 : ℚ) ^ p = 2 ^ (p - 1) * 2 := by
          rw [← pow_succ]
          congr 1
          omega
        rw [this]
        ring
      rw [e] at this
      exact this
  rcases lt_trichotomy 0 x with hx | hx | hx
  · exact key x hx
  · rw [← hx, roundNE_zero, roundNE_zero]
  · have := key (-x) (neg_pos.mpr hx)
    rw [roundNE_neg, roundNE_neg] at this
    linarith

/-- Two distinct positive floating-point numbers are at least a relative `2^-p` apart. -/
theorem float_gap (p : ℕ) (hp : 1 ≤ p) {x v : ℚ} (hx : 0 < x) (hxv : x < v)
    (fx : roundNE p x = x) (fv : roundNE p v = v) : x ≤ v * (1 - 1 / 2 ^ p) := by
  have hv : 0 < v := lt_trans hx hxv
  rw [roundNE_of_ne_zero p hx.ne'] at fx
  rw [roundNE_of_ne_zero p hv.ne'] at fv
  obtain ⟨-, hxu⟩ := scaled_bounds p hp hx
  obtain ⟨hvl, hvu⟩ := scaled_bounds p hp hv
  have hA : (0 : ℚ) < 2 ^ ulpExp p x := by positivity
  have hB : (0 : ℚ) < 2 ^ ulpExp p v := by positivity
  have hP : (0 : ℚ) < 2 ^ p := by positivity
  rw [div_lt_iff₀ hA] at hxu
  rw [le_div_iff₀ hB] at hvl
  rw [div_lt_iff₀ hB] at hvu
  push_cast at hxu hvl hvu
  have hPh : (2 : ℚ) ^ p = 2 * 2 ^ (p - 1) := by
    rw [← pow_succ']
    congr 1
    omega
  have hlog : Int.log 2 x ≤ Int.log 2 v := Int.log_mono_right hx hxv.le
  have hexv : ulpExp p x ≤ ulpExp p v := by
    unfold ulpExp
    rw [abs_of_pos hx, abs_of_pos hv]
    omega
  have goal_eq : v * (1 - 1 / 2 ^ p) = v - v / 2 ^ p := by ring
  rw [goal_eq]
  rcases lt_or_eq_of_le hexv with hlt | heq
  · have hM : roundHalfEven (x / 2 ^ ulpExp p x) < 2 ^ p := by
      have : (roundHalfEven (x / 2 ^ ulpExp p x) : ℚ) * 2 ^ ulpExp p x
          < 2 ^ p * 2 ^ ulpExp p x := by rw [fx]; exact hxu
      have h' := lt_of_mul_lt_mul_right this hA.le
      exact_mod_cast h'
    have hM' : (roundHalfEven (x / 2 ^ ulpExp p x) : ℚ) ≤ 2 ^ p - 1 := by
      have : roundHalfEven (x / 2 ^ ulpExp p x) ≤ 2 ^ p - 1 := by omega
      exact_mod_cast this
    have hxle : x ≤ (2 ^ p - 1) * 2 ^ ulpExp p x := by
      have := mul_le_mul_of_nonneg_right hM' hA.le
      rw [fx] at this
      exact this
    have hBA : (2 : ℚ) * 2 ^ ulpExp p x ≤ 2 ^ ulpExp p v := by
      have : (2 : ℚ) ^ (ulpExp p x + 1) ≤ 2 ^ ulpExp p v :=
        zpow_le_zpow_right₀ (by norm_num) (by omega)
      rw [zpow_add₀ (by norm_num : (2 : ℚ) ≠ 0), zpow_one] at this
      linarith
    have hvge : (2 : ℚ) ^ p * 2 ^ ulpExp p x ≤ v := by
      have h3 : (0 : ℚ) < 2 ^ (p - 1) := by positivity
      calc (2 : ℚ) ^ p * 2 ^ ulpExp p x = 2 ^ (p - 1) * (2 * 2 ^ ulpExp p x) := by
            rw [hPh]; ring
        _ ≤ 2 ^ (p - 1) * 2 ^ ulpExp p v := mul_le_mul_of_nonneg_left hBA h3.le
        _ ≤ v := hvl
    have hdiv : v / 2 ^ p ≤ v - (2 ^ p - 1) * 2 ^ ulpExp p x := by
      rw [div_le_iff₀ hP]
      have h1 : (1 : ℚ) ≤ 2 ^ p := one_le_pow₀ (by norm_num)
      nlinarith
    linarith
  · rw [heq] at fx hxu
    have hMN : roundHalfEven (x / 2 ^ ulpExp p v) < roundHalfEven (v / 2 ^ ulpExp p v) := by
      have : (roundHalfEven (x / 2 ^ ulpExp p v) : ℚ) * 2 ^ ulpExp p v
          < (roundHalfEven (v / 2 ^ ulpExp p v) : ℚ) * 2 ^ ulpExp p v := by
        rw [fx, fv]; exact hxv
      have h' := lt_of_mul_lt_mul_right this hB.le
      exact_mod_cast h'
    have hMN' : (roundHalfEven (x / 2 ^ ulpExp p v) : ℚ) + 1
        ≤ (roundHalfEven (v / 2 ^ ulpExp p v) : ℚ) := by
      have : roundHalfEven (x / 2 ^ ulpExp p v) + 1 ≤ roundHalfEven (v / 2 ^ ulpExp p v) := by
        omega
      exact_mod_cast this
    have hstep : x + 2 ^ ulpExp p v ≤ v := by
      have := mul_le_mul_of_nonneg_right hMN' hB.le
      rw [add_mul, fx, fv, one_mul] at this
      exact this
    have hdiv : v / 2 ^ p ≤ 2 ^ ulpExp p v := by
      rw [div_le_iff₀ hP]
      linarith
    linarith

theorem to_double_idem (x : ℚ) : to_double (to_double x) = to_double x :=
  roundNE_idem 53 (by norm_num) x

/-- The `dur_ms` count `delta_ms` of a tick difference `d` below `2^53`: it lies between
the whole milliseconds `k = d / 10^6` and the last `double` below `k + 1`. -/
theorem delta_ms_bounds (d : ℤ) (hd : 0 ≤ d) (hd2 : d < 2 ^ 53) :
    ((d / 1000000 : ℤ) : ℚ) ≤ to_double ((d : ℚ) / 1000000)
      ∧ to_double ((d : ℚ) / 1000000) ≤ (((d / 1000000 : ℤ) : ℚ) + 1) * (1 - 1 / 2 ^ 53) := by
  have hfl := floor_to_double_div d 1000000 hd hd2 (by norm_num)
  push_cast at hfl
  have hk0 : 0 ≤ d / 1000000 := Int.ediv_nonneg hd (by norm_num)
  have hkd : d / 1000000 ≤ d := Int.ediv_le_self _ hd
  have hk0' : (0 : ℚ) ≤ ((d / 1000000 : ℤ) : ℚ) := by exact_mod_cast hk0
  have h1 := Int.floor_le (to_double ((d : ℚ) / 1000000))
  have h2 := Int.lt_floor_add_one (to_double ((d : ℚ) / 1000000))
  rw [hfl] at h1 h2
  refine ⟨h1, ?_⟩
  have hq : (0 : ℚ) ≤ (d : ℚ) / 1000000 := by positivity
  rcases lt_or_eq_of_le (to_double_nonneg hq) with hpos | hzero
  · have fv : roundNE 53 (((d / 1000000 : ℤ) : ℚ) + 1) = ((d / 1000000 : ℤ) : ℚ) + 1 := by
      have := to_double_intCast (d / 1000000 + 1) (by
        rw [abs_of_nonneg (by linarith)]
        linarith)
      push_cast at this
      exact this
    exact float_gap 53 (by norm_num) hpos h2 (to_double_idem _) fv
  · rw [← hzero]
    have : (0 : ℚ) ≤ 1 - 1 / 2 ^ 53 := by norm_num
    positivity

/-- The `double → integer → double` conversions applied to `delta_ms * m`, for the unit
factor `m` with `m * c = 10^6`: the result is a whole number `U` that keeps the whole
milliseconds, `m * k ≤ U < m * (k + 1)` with `k = d / 10^6`, and is within one unit of the
exact quotient `d / c`. -/
theorem scaled_delta_ms (d m c : ℤ) (hd : 0 ≤ d) (hd2 : d < 2 ^ 53) (hm : 0 < m) (hc : 0 < c)
    (hmc : m * c = 1000000) :
    ∃ U : ℤ, to_double ((wrapSigned 64
        (truncate (to_double (to_double ((d : ℚ) / 1000000) * (m : ℚ)))) : ℤ) : ℚ) = (U : ℚ)
      ∧ m * (d / 1000000) ≤ U ∧ U < m * (d / 1000000 + 1)
      ∧ d / c - 1 ≤ U ∧ U ≤ d / c + 1 := by
  obtain ⟨hlo, hhi⟩ := delta_ms_bounds d hd hd2
  obtain ⟨x, hx⟩ : ∃ x, x = to_double ((d : ℚ) / 1000000) := ⟨_, rfl⟩
  obtain ⟨k, hk⟩ : ∃ k, k = d / 1000000 := ⟨_, rfl⟩
  rw [← hx, ← hk] at hlo hhi
  rw [← hx, ← hk]
  have hk0 : 0 ≤ k := by rw [hk]; exact Int.ediv_nonneg hd (by norm_num)
  have hk1 : k * 1000000 ≤ d := by rw [hk]; exact Int.ediv_mul_le d (by norm_num)
  have hmq : (0 : ℚ) < (m : ℚ) := by exact_mod_cast hm
  have hcq : (0 : ℚ) < (c : ℚ) := by exact_mod_cast hc
  have hdq : (0 : ℚ) ≤ (d : ℚ) := by exact_mod_cast hd
  have hdq2 : (d : ℚ) < 2 ^ 53 := by exact_mod_cast hd2
  have hkq : (0 : ℚ) ≤ (k : ℚ) := by exact_mod_cast hk0
  have hmcq : (m : ℚ) * c = 1000000 := by exact_mod_cast hmc
  have hc1 : 1 ≤ c := hc
  have hm1 : 1 ≤ m := hm
  have hmle : m ≤ 1000000 := by
    have := mul_le_mul_of_nonneg_left hc1 hm.le
    linarith
  have hx0 : 0 ≤ x := le_trans hkq hlo
  have hz0 : 0 ≤ x * m := by positivity
  -- the whole milliseconds survive the scaling
  have hmk : m * k ≤ d := by
    have := mul_le_mul_of_nonneg_right hmle hk0
    linarith
  have hylo : ((m * k : ℤ) : ℚ) ≤ to_double (x * m) := by
    have hex := to_double_intCast (m * k) (by
      rw [abs_of_nonneg (by positivity)]
      linarith)
    rw [← hex]
    apply to_double_mono
    push_cast
    have := mul_le_mul_of_nonneg_right hlo hmq.le
    linarith
  have hyhi : to_double (x * m) < ((m * (k + 1) : ℤ) : ℚ) := by
    have herr := to_double_abs_sub_le (x * m)
    rw [abs_of_nonneg hz0, abs_le] at herr
    have hw : (0 : ℚ) < (m : ℚ) * ((k : ℚ) + 1) := by positivity
    have h1 : x * m ≤ (m : ℚ) * ((k : ℚ) + 1) * (1 - 1 / 2 ^ 53) := by
      have := mul_le_mul_of_nonneg_right hhi hmq.le
      linarith
    have h2 : to_double (x * m) ≤ x * m * (1 + 1 / 2 ^ 53) := by
      have := herr.2
      have e : x * m * (1 + 1 / 2 ^ 53) = x * m + x * m / 2 ^ 53 := by ring
      rw [e]
      linarith
    have h3 : x * m * (1 + 1 / 2 ^ 53)
        ≤ (m : ℚ) * ((k : ℚ) + 1) * (1 - 1 / 2 ^ 53) * (1 + 1 / 2 ^ 53) :=
      mul_le_mul_of_nonneg_right h1 (by norm_num)
    have h4 : (m : ℚ) * ((k : ℚ) + 1) * (1 - 1 / 2 ^ 53) * (1 + 1 / 2 ^ 53)
        < (m : ℚ) * ((k : ℚ) + 1) := by
      have e : (m : ℚ) * ((k : ℚ) + 1) * (1 - 1 / 2 ^ 53) * (1 + 1 / 2 ^ 53)
          = (m : ℚ) * ((k : ℚ) + 1) - (m : ℚ) * ((k : ℚ) + 1) * (1 / 2 ^ 53) ^ 2 := by ring
      rw [e]
      have : (0 : ℚ) < (m : ℚ) * ((k : ℚ) + 1) * (1 / 2 ^ 53) ^ 2 := by positivity
      linarith
    push_cast
    linarith
  -- and the result stays within one unit of the exact quotient
  have hQ1 : d / c * c ≤ d := Int.ediv_mul_le d hc.ne'
  have hQ2 : d < (d / c + 1) * c := Int.lt_ediv_add_one_mul_self d hc
  have hQ0 : 0 ≤ d / c := Int.ediv_nonneg hd hc.le
  have hQd : d / c ≤ d := Int.ediv_le_self c hd
  have hq0 : (0 : ℚ) ≤ (d : ℚ) / 1000000 := by positivity
  have hxerr := to_double_abs_sub_le ((d : ℚ) / 1000000)
  rw [← hx, abs_of_nonneg hq0, abs_le] at hxerr
  have hsmall : (d : ℚ) / 1000000 / 2 ^ 53 * m < 1 / c := by
    have e : (d : ℚ) / 1000000 / 2 ^ 53 * m = (d : ℚ) / 2 ^ 53 * (1 / c) := by
      rw [← hmcq]
      field_simp
      ring
    rw [e]
    have : (d : ℚ) / 2 ^ 53 < 1 := by
      rw [div_lt_one (by positivity)]
      exact hdq2
    have hci : (0 : ℚ) < 1 / c := by positivity
    have := mul_lt_mul_of_pos_right this hci
    linarith
  have hqm : (d : ℚ) / 1000000 * m = (d : ℚ) / c := by
    rw [← hmcq]
    field_simp
    ring
  have hQq1 : ((d / c : ℤ) : ℚ) ≤ (d : ℚ) / c := by
    rw [le_div_iff₀ hcq]
    exact_mod_cast hQ1
  have hQq2 : (d : ℚ) / c ≤ ((d / c : ℤ) : ℚ) + 1 - 1 / c := by
    rw [div_le_iff₀ hcq]
    have : (d : ℚ) + 1 ≤ (((d / c : ℤ) : ℚ) + 1) * c := by exact_mod_cast hQ2
    have e : (((d / c : ℤ) : ℚ) + 1 - 1 / c) * c = (((d / c : ℤ) : ℚ) + 1) * c - 1 := by
      field_simp
    rw [e]
    linarith
  have hci1 : (1 : ℚ) / c ≤ 1 := by
    rw [div_le_one hcq]
    exact_mod_cast hc1
  have hzlo : ((d / c - 1 : ℤ) : ℚ) ≤ x * m := by
    push_cast
    have : ((d : ℚ) / 1000000 - (d : ℚ) / 1000000 / 2 ^ 53) * m ≤ x * m :=
      mul_le_mul_of_nonneg_right (by linarith [hxerr.1]) hmq.le
    have e : ((d : ℚ) / 1000000 - (d : ℚ) / 1000000 / 2 ^ 53) * m
        = (d : ℚ) / 1000000 * m - (d : ℚ) / 1000000 / 2 ^ 53 * m := by ring
    rw [e, hqm] at this
    linarith
  have hzhi : x * m ≤ ((d / c + 1 : ℤ) : ℚ) := by
    push_cast
    have : x * m ≤ ((d : ℚ) / 1000000 + (d : ℚ) / 1000000 / 2 ^ 53) * m :=
      mul_le_mul_of_nonneg_right (by linarith [hxerr.2]) hmq.le
    have e : ((d : ℚ) / 1000000 + (d : ℚ) / 1000000 / 2 ^ 53) * m
        = (d : ℚ) / 1000000 * m + (d : ℚ) / 1000000 / 2 ^ 53 * m := by ring
    rw [e, hqm] at this
    linarith
  have hnlo : ((d / c - 1 : ℤ) : ℚ) ≤ to_double (x * m) := by
    rcases le_or_lt 1 (d / c) with h1 | h1
    · have hex := to_double_intCast (d / c - 1) (by
        rw [abs_of_nonneg (by linarith)]
        linarith)
      rw [← hex]
      exact to_double_mono hzlo
    · have : ((d / c - 1 : ℤ) : ℚ) ≤ 0 := by exact_mod_cast (by omega : d / c - 1 ≤ 0)
      exact le_trans this (to_double_nonneg hz0)
  have hnhi : to_double (x * m) ≤ ((d / c + 1 : ℤ) : ℚ) := by
    have hex := to_double_intCast (d / c + 1) (by
      rw [abs_of_nonneg (by linarith)]
      linarith)
    rw [← hex]
    exact to_double_mono hzhi
  -- the truncation
  have hy0 : 0 ≤ to_double (x * m) := to_double_nonneg hz0
  refine ⟨⌊to_double (x * m)⌋, ?_, ?_, ?_, ?_, ?_⟩
  · rw [truncate_of_nonneg hy0]
    have hU0 : 0 ≤ ⌊to_double (x * m)⌋ := Int.floor_nonneg.mpr hy0
    have hU1 : ⌊to_double (x * m)⌋ ≤ d / c + 1 := by
      have := Int.floor_le (to_double (x * m))
      have : ((⌊to_double (x * m)⌋ : ℤ) : ℚ) ≤ ((d / c + 1 : ℤ) : ℚ) := le_trans this hnhi
      exact_mod_cast this
    rw [wrapSigned_64 _ (by linarith) (by linarith)]
    exact to_double_intCast _ (by rw [abs_of_nonneg hU0]; linarith)
  · exact Int.le_floor.mpr hylo
  · exact Int.floor_lt.mpr hyhi
  · exact Int.le_floor.mpr hnlo
  · have := Int.floor_le (to_double (x * m))
    have : ((⌊to_double (x * m)⌋ : ℤ) : ℚ) ≤ ((d / c + 1 : ℤ) : ℚ) := le_trans this hnhi
    exact_mod_cast this

/-! ### The unit conversions of the comparison demonstrations -/

theorem DURATION_TO_US_dur_ms (x : ℚ) :
    DURATION_TO_US dur_ms x
      = to_double ((wrapSigned 64 (truncate (to_double (x * 1000))) : ℤ) : ℚ) := by
  unfold DURATION_TO_US DURATION_TO_INTERVAL
  rw [duration_cast_dur_ms_micro]
  rfl

theorem DURATION_TO_NS_dur_ms (x : ℚ) :
    DURATION_TO_NS dur_ms x
      = to_double ((wrapSigned 64 (truncate (to_double (x * 1000000))) : ℤ) : ℚ) := by
  unfold DURATION_TO_NS DURATION_TO_INTERVAL
  rw [duration_cast_dur_ms_nano]
  rfl

theorem DURATION_TO_US_dur_us (x : ℚ) :
    DURATION_TO_US dur_us x = to_double ((wrapSigned 64 (truncate x) : ℤ) : ℚ) := by
  unfold DURATION_TO_US DURATION_TO_INTERVAL
  rw [duration_cast_dur_us_micro]
  rfl

theorem DURATION_TO_NS_dur_ns (x : ℚ) :
    DURATION_TO_NS dur_ns x = to_double ((wrapSigned 64 (truncate x) : ℤ) : ℚ) := by
  unfold DURATION_TO_NS DURATION_TO_INTERVAL
  rw [duration_cast_dur_ns_nano]
  rfl

theorem demo_time_units_compact_eq (begin end_ : ℤ) :
    demo_time_units_compact begin end_
      = { ms := to_double ((wrapSigned 64 (truncate
            (to_double (to_double (time_point_sub end_ begin) / 1000000))) : ℤ) : ℚ),
          us := to_double ((wrapSigned 64 (truncate (to_double
            (to_double (to_double (time_point_sub end_ begin) / 1000000) * 1000))) : ℤ) : ℚ),
          ns := to_double ((wrapSigned 64 (truncate (to_double
            (to_double (to_double (time_point_sub end_ begin) / 1000000) * 1000000))) : ℤ)
              : ℚ) } := by
  unfold demo_time_units_compact dump_elapsed
  simp only [duration_cast_hr_dur_ms, DURATION_TO_MS_dur_ms, DURATION_TO_US_dur_ms,
    DURATION_TO_NS_dur_ms]

theorem demo_time_units_compare_fst (begin end_ : ℤ) :
    (demo_time_units_compare begin end_).1 = demo_time_units_compact begin end_ := rfl

theorem demo_time_units_compare_snd (begin end_ : ℤ) :
    (demo_time_units_compare begin end_).2
      = { ms := to_double ((wrapSigned 64 (truncate
            (to_double (to_double (time_point_sub end_ begin) / 1000000))) : ℤ) : ℚ),
          us := to_double ((wrapSigned 64 (truncate
            (to_double (to_double (time_point_sub end_ begin) / 1000))) : ℤ) : ℚ),
          ns := to_double ((wrapSigned 64 (truncate
            (to_double (time_point_sub end_ begin))) : ℤ) : ℚ) } := by
  unfold demo_time_units_compare dump_elapsed
  simp only [duration_cast_hr_dur_ms, duration_cast_hr_dur_us, duration_cast_hr_dur_ns,
    DURATION_TO_MS_dur_ms, DURATION_TO_US_dur_us, DURATION_TO_NS_dur_ns]

/-- The three values of the first block for a tick difference below `2^53`: whole
numbers `k`, `U`, `V` with `k = d / 10^6`, the other two keeping the whole milliseconds and
lying within one unit of `d / 1000` and `d`. -/
theorem units_of_delta_ms (begin end_ : ℤ) (h : begin ≤ end_) (hr : end_ - begin < 2 ^ 53) :
    ∃ U V : ℤ, demo_time_units_compact begin end_
        = { ms := (((end_ - begin) / 1000000 : ℤ) : ℚ), us := (U : ℚ), ns := (V : ℚ) }
      ∧ 1000 * ((end_ - begin) / 1000000) ≤ U ∧ U < 1000 * ((end_ - begin) / 1000000 + 1)
      ∧ (end_ - begin) / 1000 - 1 ≤ U ∧ U ≤ (end_ - begin) / 1000 + 1
      ∧ 1000000 * ((end_ - begin) / 1000000) ≤ V
      ∧ V < 1000000 * ((end_ - begin) / 1000000 + 1)
      ∧ (end_ - begin) - 1 ≤ V ∧ V ≤ (end_ - begin) + 1 := by
  have hd : 0 ≤ end_ - begin := by linarith
  obtain ⟨U, hU, hU1, hU2, hU3, hU4⟩ :=
    scaled_delta_ms (end_ - begin) 1000 1000 hd hr (by norm_num) (by norm_num) (by norm_num)
  obtain ⟨V, hV, hV1, hV2, hV3, hV4⟩ :=
    scaled_delta_ms (end_ - begin) 1000000 1 hd hr (by norm_num) (by norm_num) (by norm_num)
  refine ⟨U, V, ?_, hU1, hU2, hU3, hU4, hV1, hV2, ?_, ?_⟩
  · rw [demo_time_units_compact_eq, time_point_sub_eq begin end_ (by linarith) (by linarith),
      ms_double_path_nonneg _ hd hr,
      to_double_intCast (end_ - begin) (by rw [abs_of_nonneg hd]; linarith)]
    simp only [Int.cast_ofNat] at hU hV
    rw [hU, hV]
  · simpa using hV3
  · simpa using hV4

/-- Evaluation of `to_double` at a number whose binade `E` and scaled floor `f` are
given. -/
theorem to_double_eval (x : ℚ) (E f m : ℤ) (h1 : (2 : ℚ) ^ E ≤ |x|)
    (h2 : |x| < (2 : ℚ) ^ (E + 1)) (hf : ⌊x / 2 ^ (E - 52)⌋ = f)
    (hm : (if x / 2 ^ (E - 52) - f < 1 / 2 then f else if 1 / 2 < x / 2 ^ (E - 52) - f
      then f + 1 else if f % 2 = 0 then f else f + 1) = m) :
    to_double x = (m : ℚ) * 2 ^ (E - 52) := by
  unfold to_double
  have e : E - (((53 : ℕ) : ℤ) - 1) = E - 52 := by norm_num
  rw [roundNE_eval 53 x E m h1 h2 (by rw [e, roundHalfEven_eq_of_floor _ f hf]; exact hm), e]

theorem to_double_dyadic (m k : ℤ) (hm : |m| < 2 ^ 53) :
    to_double ((m : ℚ) * 2 ^ k) = (m : ℚ) * 2 ^ k :=
  roundNE_exact 53 m k hm

/-- The tick difference `1.5 ms`: the three values of `demo_time_units_compact`. -/
theorem demo_time_units_compact_1500000 :
    demo_time_units_compact 0 1500000 = { ms := 1, us := 1500, ns := 1500000 } := by
  rw [demo_time_units_compact_eq, time_point_sub_eq 0 _ (by norm_num) (by norm_num)]
  have e1 : (((1500000 - 0 : ℤ) : ℤ) : ℚ) = ((1500000 : ℤ) : ℚ) := by norm_num
  have e2 : ((1500000 : ℤ) : ℚ) / 1000000 = ((3 : ℤ) : ℚ) * 2 ^ (-1 : ℤ) := by norm_num
  have e3 : ((3 : ℤ) : ℚ) * 2 ^ (-1 : ℤ) * 1000 = ((1500 : ℤ) : ℚ) := by norm_num
  have e4 : ((3 : ℤ) : ℚ) * 2 ^ (-1 : ℤ) * 1000000 = ((1500000 : ℤ) : ℚ) := by norm_num
  have hfl : truncate (((3 : ℤ) : ℚ) * 2 ^ (-1 : ℤ)) = 1 := by
    rw [truncate_of_nonneg (by norm_num), Int.floor_eq_iff]
    norm_num
  rw [e1, to_double_intCast 1500000 (by norm_num), e2, to_double_dyadic 3 (-1) (by norm_num),
    e3, e4, hfl, to_double_intCast 1500 (by norm_num),
    to_double_intCast 1500000 (by norm_num), truncate_intCast, truncate_intCast,
    wrapSigned_64 1 (by norm_num) (by norm_num),
    wrapSigned_64 1500 (by norm_num) (by norm_num),
    wrapSigned_64 1500000 (by norm_num) (by norm_num),
    to_double_intCast 1 (by norm_num), to_double_intCast 1500 (by norm_num),
    to_double_intCast 1500000 (by norm_num)]
  norm_num

/-! ## C4: consistency of the three units -/

/-- C4 (as amended): for clock readings `begin ≤ end` less than `2^53` ns apart, the three
values `demo_time_units_compact` (and the first block of `demo_time_units_compare`)
derives from the same `dur_ms` duration are whole numbers `ms`, `us`, `ns`, and `us`, `ns`
exceed `ms * 1000`, `ms * 10^6` by the sub-millisecond part of the interval, which `ms`
drops: `0 ≤ us - 1000 * ms ≤ 999` and `0 ≤ ns - 10^6 * ms ≤ 999999`. -/
theorem demo_time_units_compact_consistent (begin end_ : ℤ) (h : begin ≤ end_)
    (hr : end_ - begin < 2 ^ 53) :
    (demo_time_units_compare begin end_).1 = demo_time_units_compact begin end_
      ∧ ∃ k U V : ℤ, (demo_time_units_compact begin end_).ms = (k : ℚ)
        ∧ (demo_time_units_compact begin end_).us = (U : ℚ)
        ∧ (demo_time_units_compact begin end_).ns = (V : ℚ)
        ∧ 0 ≤ k
        ∧ 0 ≤ U - 1000 * k ∧ U - 1000 * k ≤ 999
        ∧ 0 ≤ V - 1000000 * k ∧ V - 1000000 * k ≤ 999999 := by
  refine ⟨demo_time_units_compare_fst begin end_, ?_⟩
  obtain ⟨U, V, hval, hU1, hU2, -, -, hV1, hV2, -, -⟩ := units_of_delta_ms begin end_ h hr
  have hk0 : 0 ≤ (end_ - begin) / 1000000 := Int.ediv_nonneg (by linarith) (by norm_num)
  refine ⟨(end_ - begin) / 1000000, U, V, ?_, ?_, ?_, hk0, ?_, ?_, ?_, ?_⟩
  · rw [hval]
  · rw [hval]
  · rw [hval]
  · linarith
  · linarith
  · linarith
  · linarith

/-- C4, witness: readings 1.0005 s apart. -/
theorem demo_time_units_compact_consistent_witness :
    (0 : ℤ) ≤ 1000500000 ∧ (1000500000 : ℤ) - 0 < 2 ^ 53
      ∧ ∃ k U V : ℤ, (demo_time_units_compact 0 1000500000).ms = (k : ℚ)
        ∧ (demo_time_units_compact 0 1000500000).us = (U : ℚ)
        ∧ (demo_time_units_compact 0 1000500000).ns = (V : ℚ)
        ∧ 0 ≤ k
        ∧ 0 ≤ U - 1000 * k ∧ U - 1000 * k ≤ 999
        ∧ 0 ≤ V - 1000000 * k ∧ V - 1000000 * k ≤ 999999 :=
  ⟨by decide, by decide,
    (demo_time_units_compact_consistent 0 1000500000 (by decide) (by decide)).2⟩

/-- C4, counterexample to the claim as stated: for readings `1.5 ms` apart the values are
`ms = 1`, `us = 1500`, `ns = 1500000`; `us` and `ns` differ from `ms * 1000` and
`ms * 10^6` by a third of their value, not by a rounding error (here: not even within a
relative tolerance of `10^-6`). -/
theorem demo_time_units_compact_drops_fraction :
    (0 : ℤ) ≤ 1500000 - 0
      ∧ ¬ (|(demo_time_units_compact 0 1500000).us - (demo_time_units_compact 0 1500000).ms * 1000|
            ≤ (demo_time_units_compact 0 1500000).us / 1000000)
      ∧ ¬ (|(demo_time_units_compact 0 1500000).ns
              - (demo_time_units_compact 0 1500000).ms * 1000000|
            ≤ (demo_time_units_compact 0 1500000).ns / 1000000) := by
  rw [demo_time_units_compact_1500000]
  norm_num [abs_of_pos]

/-! ### The second block of `demo_time_units_compare` -/

theorem us_double_path_nonneg (d : ℤ) (hd : 0 ≤ d) (hd2 : d < 2 ^ 53) :
    to_double ((wrapSigned 64 (truncate (to_double (to_double (d : ℚ) / 1000))) : ℤ) : ℚ)
      = ((d / 1000 : ℤ) : ℚ) := by
  rw [to_double_intCast d (by rw [abs_of_nonneg hd]; linarith)]
  have hq : (0 : ℚ) ≤ (d : ℚ) / 1000 := by positivity
  have hfl := floor_to_double_div d 1000 hd hd2 (by norm_num)
  push_cast at hfl
  rw [truncate_of_nonneg (to_double_nonneg hq), hfl]
  have hk0 : 0 ≤ d / 1000 := Int.ediv_nonneg hd (by norm_num)
  have hkd : d / 1000 ≤ d := Int.ediv_le_self _ hd
  rw [wrapSigned_64 _ (by linarith) (by linarith)]
  exact to_double_intCast _ (by rw [abs_of_nonneg hk0]; linarith)

theorem ns_double_path (d : ℤ) (hd : |d| ≤ 2 ^ 53) :
    to_double ((wrapSigned 64 (truncate (to_double (d : ℚ))) : ℤ) : ℚ) = (d : ℚ) := by
  have hb := abs_le.mp hd
  rw [to_double_intCast d hd, truncate_intCast,
    wrapSigned_64 _ (by linarith [hb.1]) (by linarith [hb.2]), to_double_intCast d hd]

/-- The first block of `demo_time_units_compare` for the tick difference `1.024003 s`. -/
theorem demo_time_units_compact_1024003000 :
    demo_time_units_compact 0 1024003000
      = { ms := 1024, us := 1024002, ns := 1024002999 } := by
  rw [demo_time_units_compact_eq, time_point_sub_eq 0 _ (by norm_num) (by norm_num)]
  have e1 : (((1024003000 - 0 : ℤ) : ℤ) : ℚ) = ((1024003000 : ℤ) : ℚ) := by norm_num
  have hx : to_double (((1024003000 : ℤ) : ℚ) / 1000000)
      = ((4503612821510029 : ℤ) : ℚ) * 2 ^ ((10 : ℤ) - 52) :=
    to_double_eval _ 10 4503612821510029 4503612821510029 (by norm_num [abs_of_pos])
      (by norm_num [abs_of_pos]) (by rw [Int.floor_eq_iff]; norm_num) (by norm_num)
  have hus : to_double (((4503612821510029 : ℤ) : ℚ) * 2 ^ ((10 : ℤ) - 52) * 1000)
      = ((8796118792011775 : ℤ) : ℚ) * 2 ^ ((19 : ℤ) - 52) :=
    to_double_eval _ 19 8796118792011775 8796118792011775 (by norm_num [abs_of_pos])
      (by norm_num [abs_of_pos]) (by rw [Int.floor_eq_iff]; norm_num) (by norm_num)
  have hns : to_double (((4503612821510029 : ℤ) : ℚ) * 2 ^ ((10 : ℤ) - 52) * 1000000)
      = ((8589959757823999 : ℤ) : ℚ) * 2 ^ ((29 : ℤ) - 52) :=
    to_double_eval _ 29 8589959757823999 8589959757823999 (by norm_num [abs_of_pos])
      (by norm_num [abs_of_pos]) (by rw [Int.floor_eq_iff]; norm_num) (by norm_num)
  have t1 : truncate (((4503612821510029 : ℤ) : ℚ) * 2 ^ ((10 : ℤ) - 52)) = 1024 := by
    rw [truncate_of_nonneg (by norm_num), Int.floor_eq_iff]
    norm_num
  have t2 : truncate (((8796118792011775 : ℤ) : ℚ) * 2 ^ ((19 : ℤ) - 52)) = 1024002 := by
    rw [truncate_of_nonneg (by norm_num), Int.floor_eq_iff]
    norm_num
  have t3 : truncate (((8589959757823999 : ℤ) : ℚ) * 2 ^ ((29 : ℤ) - 52)) = 1024002999 := by
    rw [truncate_of_nonneg (by norm_num), Int.floor_eq_iff]
    norm_num
  rw [e1, to_double_intCast 1024003000 (by norm_num), hx, hus, hns, t1, t2, t3,
    wrapSigned_64 1024 (by norm_num) (by norm_num),
    wrapSigned_64 1024002 (by norm_num) (by norm_num),
    wrapSigned_64 1024002999 (by norm_num) (by norm_num),
    to_double_intCast 1024 (by norm_num), to_double_intCast 1024002 (by norm_num),
    to_double_intCast 1024002999 (by norm_num)]
  norm_num

/-! ## C5: the two blocks of the unit comparison -/

/-- C5 (as amended): in `demo_time_units_compare`, for clock readings `begin ≤ end` less
than `2^53` ns apart, the millisecond value is the same in both blocks; the second block
prints the exact whole microseconds `(end - begin) / 1000` and nanoseconds `end - begin`;
the microsecond and nanosecond values of the first block, recomputed from the rounded
`dur_ms` count, are within one unit of them. -/
theorem demo_time_units_compare_blocks (begin end_ : ℤ) (h : begin ≤ end_)
    (hr : end_ - begin < 2 ^ 53) :
    (demo_time_units_compare begin end_).2.ms = (demo_time_units_compare begin end_).1.ms
      ∧ (demo_time_units_compare begin end_).2.us = (((end_ - begin) / 1000 : ℤ) : ℚ)
      ∧ (demo_time_units_compare begin end_).2.ns = ((end_ - begin : ℤ) : ℚ)
      ∧ |(demo_time_units_compare begin end_).1.us
          - (demo_time_units_compare begin end_).2.us| ≤ 1
      ∧ |(demo_time_units_compare begin end_).1.ns
          - (demo_time_units_compare begin end_).2.ns| ≤ 1 := by
  have hd : 0 ≤ end_ - begin := by linarith
  obtain ⟨U, V, hval, -, -, hU3, hU4, -, -, hV3, hV4⟩ := units_of_delta_ms begin end_ h hr
  have hsub := time_point_sub_eq begin end_ (by linarith) (by linarith)
  rw [demo_time_units_compare_fst, demo_time_units_compare_snd, hval, hsub,
    ms_double_path_nonneg _ hd hr, us_double_path_nonneg _ hd hr,
    ns_double_path _ (by rw [abs_of_nonneg hd]; linarith)]
  refine ⟨rfl, rfl, rfl, ?_, ?_⟩
  · rw [abs_le]
    have a : ((((end_ - begin) / 1000 - 1 : ℤ) : ℤ) : ℚ) ≤ (U : ℚ) := by exact_mod_cast hU3
    have b : (U : ℚ) ≤ ((((end_ - begin) / 1000 + 1 : ℤ) : ℤ) : ℚ) := by exact_mod_cast hU4
    push_cast at a b
    constructor <;> linarith
  · rw [abs_le]
    have a : (((end_ - begin - 1 : ℤ) : ℤ) : ℚ) ≤ (V : ℚ) := by exact_mod_cast hV3
    have b : (V : ℚ) ≤ (((end_ - begin + 1 : ℤ) : ℤ) : ℚ) := by exact_mod_cast hV4
    push_cast at a b ⊢
    constructor <;> linarith

/-- C5, witness: readings 1.0005 s apart. -/
theorem demo_time_units_compare_blocks_witness :
    (0 : ℤ) ≤ 1000500000 ∧ (1000500000 : ℤ) - 0 < 2 ^ 53
      ∧ (demo_time_units_compare 0 1000500000).2.us
          = ((((1000500000 : ℤ) - 0) / 1000 : ℤ) : ℚ)
      ∧ (demo_time_units_compare 0 1000500000).2.ns = (((1000500000 : ℤ) - 0 : ℤ) : ℚ) :=
  ⟨by decide, by decide,
    (demo_time_units_compare_blocks 0 1000500000 (by decide) (by decide)).2.1,
    (demo_time_units_compare_blocks 0 1000500000 (by decide) (by decide)).2.2.1⟩

/-- C5, counterexample to the claim as stated: for readings `1.024003 s` apart the first
block prints `us = 1024002`, `ns = 1024002999` and the second `us = 1024003`,
`ns = 1024003000`. -/
theorem demo_time_units_compare_blocks_differ :
    (0 : ℤ) ≤ 1024003000
      ∧ (demo_time_units_compare 0 1024003000).1
          = { ms := 1024, us := 1024002, ns := 1024002999 }
      ∧ (demo_time_units_compare 0 1024003000).2
          = { ms := 1024, us := 1024003, ns := 1024003000 }
      ∧ (demo_time_units_compare 0 1024003000).1.us
          ≠ (demo_time_units_compare 0 1024003000).2.us
      ∧ (demo_time_units_compare 0 1024003000).1.ns
          ≠ (demo_time_units_compare 0 1024003000).2.ns := by
  have h2 : (demo_time_units_compare 0 1024003000).2
      = { ms := 1024, us := 1024003, ns := 1024003000 } := by
    rw [demo_time_units_compare_snd, time_point_sub_eq 0 _ (by norm_num) (by norm_num),
      ms_double_path_nonneg _ (by norm_num) (by norm_num),
      us_double_path_nonneg _ (by norm_num) (by norm_num),
      ns_double_path _ (by norm_num)]
    norm_num
  rw [h2, demo_time_units_compare_fst, demo_time_units_compact_1024003000]
  refine ⟨by norm_num, rfl, rfl, ?_, ?_⟩ <;> norm_num

/-! ### The integer pipeline on any tick count -/

theorem truncate_div_million (d : ℤ) :
    truncate ((d : ℚ) / 1000000) = Int.tdiv d 1000000 := by
  have key : ∀ a : ℤ, 0 ≤ a → truncate ((a : ℚ) / 1000000) = a / 1000000 := by
    intro a ha
    have hq : (0 : ℚ) ≤ (a : ℚ) / 1000000 := by positivity
    rw [truncate_of_nonneg hq]
    have := Rat.floor_intCast_div_natCast a 1000000
    push_cast at this
    exact this
  rcases le_or_lt 0 d with hd | hd
  · rw [key d hd, Int.tdiv_eq_ediv hd (by norm_num)]
  · have h := key (-d) (by linarith)
    have e : (d : ℚ) / 1000000 = -(((-d : ℤ) : ℚ) / 1000000) := by
      push_cast
      ring
    have e2 : d = -(-d) := by ring
    rw [e, truncate_neg, h]
    conv_rhs => rw [e2, Int.neg_tdiv, Int.tdiv_eq_ediv (by linarith : (0 : ℤ) ≤ -d)
      (by norm_num)]

theorem ms_int_path (d : ℤ) (h1 : -2 ^ 63 ≤ d) (h2 : d < 2 ^ 63) :
    to_double ((wrapSigned 64 (truncate ((d : ℚ) / 1000000)) : ℤ) : ℚ)
      = ((Int.tdiv d 1000000 : ℤ) : ℚ) := by
  rw [truncate_div_million]
  have hb : -2 ^ 53 < Int.tdiv d 1000000 ∧ Int.tdiv d 1000000 < 2 ^ 53 := by
    rcases le_or_lt 0 d with hd | hd
    · rw [Int.tdiv_eq_ediv hd (by norm_num)]
      norm_num at h2 ⊢
      omega
    · have e2 : d = -(-d) := by ring
      rw [e2, Int.neg_tdiv, Int.tdiv_eq_ediv (by linarith : (0 : ℤ) ≤ -d) (by norm_num)]
      norm_num at h1 ⊢
      omega
  rw [wrapSigned_64 _ (by norm_num at hb ⊢; omega) (by norm_num at hb ⊢; omega)]
  exact to_double_intCast _ (by rw [abs_le]; constructor <;> linarith [hb.1, hb.2])

/-! ## C6: the seven demonstrations compute the same value -/

/-- C6 (as amended): for clock readings less than `2^53` ns apart (in either order), all
seven demonstrations print the same number, the interval in whole milliseconds
`elapsed_whole_ms`, whether they cast the `double` millisecond count or the clock's
integer tick count. -/
theorem demo_ms_all_agree (begin end_ : ℤ) (h1 : -2 ^ 53 < end_ - begin)
    (h2 : end_ - begin < 2 ^ 53) :
    demo_ms_verbose_ugly begin end_ = elapsed_whole_ms begin end_
      ∧ demo_ms_verbose_bad begin end_ = elapsed_whole_ms begin end_
      ∧ demo_ms_verbose_auto_crap begin end_ = elapsed_whole_ms begin end_
      ∧ demo_ms_verbose_auto_better begin end_ = elapsed_whole_ms begin end_
      ∧ demo_ms_compact_good begin end_ = elapsed_whole_ms begin end_
      ∧ demo_ms_compact_better begin end_ = elapsed_whole_ms begin end_
      ∧ demo_ms_compact_best begin end_ = elapsed_whole_ms begin end_ := by
  have hsub := time_point_sub_eq begin end_ (by linarith) (by linarith)
  have hv := ms_double_path _ h1 h2
  have hi := ms_int_path (end_ - begin) (by linarith) (by linarith)
  rw [demo_ms_verbose_ugly_eq, demo_ms_verbose_bad_eq, demo_ms_compact_good_eq,
    demo_ms_compact_better_eq, demo_ms_compact_best_eq, demo_ms_verbose_auto_crap_eq,
    demo_ms_verbose_auto_better_eq, hsub, hv, hi]
  unfold elapsed_whole_ms
  exact ⟨rfl, rfl, rfl, rfl, rfl, rfl, rfl⟩

/-- C6, witness: readings 1.0005 s apart; the `double` and the integer variant agree. -/
theorem demo_ms_all_agree_witness :
    -2 ^ 53 < (1000500000 : ℤ) - 0 ∧ (1000500000 : ℤ) - 0 < 2 ^ 53
      ∧ demo_ms_verbose_ugly 0 1000500000 = elapsed_whole_ms 0 1000500000
      ∧ demo_ms_verbose_auto_crap 0 1000500000 = elapsed_whole_ms 0 1000500000 :=
  ⟨by decide, by decide,
    (demo_ms_all_agree 0 1000500000 (by decide) (by decide)).1,
    (demo_ms_all_agree 0 1000500000 (by decide) (by decide)).2.2.1⟩

/-- C6, counterexample to the claim as stated (every pair of timestamps): for readings
`9007199254999999` ns apart `demo_ms_verbose_ugly` prints `9007199255` and
`demo_ms_verbose_auto_crap` prints `9007199254`. -/
theorem demo_ms_double_and_auto_differ :
    demo_ms_verbose_ugly 0 9007199254999999 = 9007199255
      ∧ demo_ms_verbose_auto_crap 0 9007199254999999 = 9007199254
      ∧ demo_ms_verbose_ugly 0 9007199254999999
          ≠ demo_ms_verbose_auto_crap 0 9007199254999999 := by
  have ha : demo_ms_verbose_ugly 0 9007199254999999 = 9007199255 := by
    rw [demo_ms_verbose_ugly_eq, ms_double_path_long]
  have hb : demo_ms_verbose_auto_crap 0 9007199254999999 = 9007199254 := by
    rw [demo_ms_verbose_auto_crap_eq, time_point_sub_eq 0 _ (by norm_num) (by norm_num),
      ms_int_path_nonneg _ (by norm_num) (by norm_num)]
    norm_num
  rw [ha, hb]
  refine ⟨rfl, rfl, ?_⟩
  norm_num

/-! ### Relative error of `double` arithmetic -/

theorem to_double_rel {x : ℚ} (hx : 0 < x) :
    x * (1 - 1 / 2 ^ 53) ≤ to_double x ∧ to_double x ≤ x * (1 + 1 / 2 ^ 53) := by
  have h := to_double_abs_sub_le x
  rw [abs_of_pos hx, abs_le] at h
  constructor
  · have e : x * (1 - 1 / 2 ^ 53) = x - x / 2 ^ 53 := by ring
    rw [e]
    linarith [h.1]
  · have e : x * (1 + 1 / 2 ^ 53) = x + x / 2 ^ 53 := by ring
    rw [e]
    linarith [h.2]

theorem to_double_pos {x : ℚ} (hx : 0 < x) : 0 < to_double x := by
  have h := (to_double_rel hx).1
  have : (0 : ℚ) < x * (1 - 1 / 2 ^ 53) := by
    have : (0 : ℚ) < 1 - 1 / 2 ^ 53 := by norm_num
    positivity
  linarith

/-- One more `double` multiplication by a positive constant `c`: relative bounds `L`, `H`
on `y` with respect to `a` become `L * (1 - 2^-53)`, `H * (1 + 2^-53)` with respect to
`a * c`. -/
theorem to_double_scale_bounds {a y c L H : ℚ} (ha : 0 < a) (hc : 0 < c) (hL : 0 < L)
    (h1 : a * L ≤ y) (h2 : y ≤ a * H) :
    a * c * (L * (1 - 1 / 2 ^ 53)) ≤ to_double (y * c)
      ∧ to_double (y * c) ≤ a * c * (H * (1 + 1 / 2 ^ 53)) := by
  have hy : 0 < y := lt_of_lt_of_le (by positivity) h1
  have hyc : 0 < y * c := by positivity
  obtain ⟨r1, r2⟩ := to_double_rel hyc
  have hu1 : (0 : ℚ) ≤ c * (1 - 1 / 2 ^ 53) := by
    have : (0 : ℚ) < 1 - 1 / 2 ^ 53 := by norm_num
    positivity
  have hu2 : (0 : ℚ) ≤ c * (1 + 1 / 2 ^ 53) := by positivity
  have s1 := mul_le_mul_of_nonneg_right h1 hu1
  have s2 := mul_le_mul_of_nonneg_right h2 hu2
  constructor
  · calc a * c * (L * (1 - 1 / 2 ^ 53)) = a * L * (c * (1 - 1 / 2 ^ 53)) := by ring
      _ ≤ y * (c * (1 - 1 / 2 ^ 53)) := s1
      _ = y * c * (1 - 1 / 2 ^ 53) := by ring
      _ ≤ to_double (y * c) := r1
  · calc to_double (y * c) ≤ y * c * (1 + 1 / 2 ^ 53) := r2
      _ = y * (c * (1 + 1 / 2 ^ 53)) := by ring
      _ ≤ a * H * (c * (1 + 1 / 2 ^ 53)) := s2
      _ = a * c * (H * (1 + 1 / 2 ^ 53)) := by ring

/-- The periods computed by `dump_generic_clock_metrics` against the exact ratio. -/
theorem expected_quanta_bounds (numerator denominator quanta : ℚ) (hn : 0 < numerator)
    (hd : 0 < denominator) :
    numerator / denominator * (1 - 1 / 2 ^ 53)
        ≤ (dump_generic_clock_metrics numerator denominator quanta).expected_quanta_s
      ∧ (dump_generic_clock_metrics numerator denominator quanta).expected_quanta_s
        ≤ numerator / denominator * (1 + 1 / 2 ^ 53)
      ∧ numerator / denominator * 1000000000 * (1 - 1 / 2 ^ 50)
        ≤ (dump_generic_clock_metrics numerator denominator quanta).expected_quanta_ns
      ∧ (dump_generic_clock_metrics numerator denominator quanta).expected_quanta_ns
        ≤ numerator / denominator * 1000000000 * (1 + 1 / 2 ^ 50) := by
  have hq : 0 < numerator / denominator := by positivity
  obtain ⟨a1, a2⟩ := to_double_rel hq
  have hL : (0 : ℚ) < 1 - 1 / 2 ^ 53 := by norm_num
  obtain ⟨b1, b2⟩ := to_double_scale_bounds hq (by norm_num : (0 : ℚ) < 1000) hL a1 a2
  obtain ⟨c1, c2⟩ := to_double_scale_bounds (by positivity) (by norm_num : (0 : ℚ) < 1000)
    (by positivity) b1 b2
  obtain ⟨d1, d2⟩ := to_double_scale_bounds (by positivity) (by norm_num : (0 : ℚ) < 1000)
    (by positivity) c1 c2
  have hA : (0 : ℚ) < numerator / denominator * 1000000000 := by positivity
  have eA : numerator / denominator * 1000 * 1000 * 1000
      = numerator / denominator * 1000000000 := by ring
  rw [eA] at d1 d2
  have n1 : (1 : ℚ) - 1 / 2 ^ 50
      ≤ (1 - 1 / 2 ^ 53) * (1 - 1 / 2 ^ 53) * (1 - 1 / 2 ^ 53) * (1 - 1 / 2 ^ 53) := by
    norm_num
  have n2 : ((1 : ℚ) + 1 / 2 ^ 53) * (1 + 1 / 2 ^ 53) * (1 + 1 / 2 ^ 53) * (1 + 1 / 2 ^ 53)
      ≤ 1 + 1 / 2 ^ 50 := by
    norm_num
  refine ⟨a1, a2, ?_, ?_⟩
  · exact le_trans (mul_le_mul_of_nonneg_left n1 hA.le) d1
  · exact le_trans d2 (mul_le_mul_of_nonneg_left n2 hA.le)

theorem dump_clock_nano_quanta (start end_ : ℤ) :
    (dump_clock ⟨1, 1000000000, start, end_⟩).actual_quanta_ns
      = to_double (time_point_sub end_ start) := by
  simp [dump_clock, dump_generic_clock_metrics, DURATION_TO_NS, DURATION_TO_INTERVAL,
    duration_cast, time_nano_t, static_cast]

/-- The periods `dump_generic_clock_metrics` computes for a nanosecond clock, period
`1 / 10^9`: the nearest `double` to `10^-9`, and `1 + 2^-52` nanoseconds. -/
theorem dump_generic_clock_metrics_nano (quanta : ℚ) :
    (dump_generic_clock_metrics 1 1000000000 quanta).expected_quanta_s
        = 4835703278458517 / 2 ^ 82
      ∧ (dump_generic_clock_metrics 1 1000000000 quanta).expected_quanta_ns
        = 4503599627370497 / 4503599627370496 := by
  have h1 : to_double ((1 : ℚ) / 1000000000)
      = ((4835703278458517 : ℤ) : ℚ) * 2 ^ ((-30 : ℤ) - 52) :=
    to_double_eval _ (-30) 4835703278458516 4835703278458517 (by norm_num [abs_of_pos])
      (by norm_num [abs_of_pos]) (by rw [Int.floor_eq_iff]; norm_num) (by norm_num)
  have h2 : to_double (((4835703278458517 : ℤ) : ℚ) * 2 ^ ((-30 : ℤ) - 52) * 1000)
      = ((4722366482869646 : ℤ) : ℚ) * 2 ^ ((-20 : ℤ) - 52) :=
    to_double_eval _ (-20) 4722366482869645 4722366482869646 (by norm_num [abs_of_pos])
      (by norm_num [abs_of_pos]) (by rw [Int.floor_eq_iff]; norm_num) (by norm_num)
  have h3 : to_double (((4722366482869646 : ℤ) : ℚ) * 2 ^ ((-20 : ℤ) - 52) * 1000)
      = ((4611686018427389 : ℤ) : ℚ) * 2 ^ ((-10 : ℤ) - 52) :=
    to_double_eval _ (-10) 4611686018427388 4611686018427389 (by norm_num [abs_of_pos])
      (by norm_num [abs_of_pos]) (by rw [Int.floor_eq_iff]; norm_num) (by norm_num)
  have h4 : to_double (((4611686018427389 : ℤ) : ℚ) * 2 ^ ((-10 : ℤ) - 52) * 1000)
      = ((4503599627370497 : ℤ) : ℚ) * 2 ^ ((0 : ℤ) - 52) :=
    to_double_eval _ 0 4503599627370497 4503599627370497 (by norm_num [abs_of_pos])
      (by norm_num [abs_of_pos]) (by rw [Int.floor_eq_iff]; norm_num) (by norm_num)
  unfold dump_generic_clock_metrics
  simp only []
  rw [h1, h2, h3, h4]
  constructor <;> norm_num

/-! ### The quantum of a clock with any period -/

theorem truncate_intCast_mul_natCast (d : ℤ) (a : ℕ) :
    truncate ((d : ℚ) * (a : ℚ)) = d * (a : ℤ) := by
  have e : (d : ℚ) * (a : ℚ) = ((d * (a : ℤ) : ℤ) : ℚ) := by push_cast; ring
  rw [e, truncate_intCast]

theorem truncate_intCast_div_natCast (z : ℤ) (hz : 0 ≤ z) (b : ℕ) :
    truncate ((z : ℚ) / (b : ℚ)) = z / (b : ℤ) := by
  have hq : (0 : ℚ) ≤ (z : ℚ) / (b : ℚ) := by
    have : (0 : ℚ) ≤ (z : ℚ) := by exact_mod_cast hz
    positivity
  rw [truncate_of_nonneg hq]
  exact Rat.floor_intCast_div_natCast z b

/-- `duration_cast<nanoseconds>` of `d ≥ 0` ticks of a clock with period `num / den`: the
whole nanoseconds `d * num * 10^9 / den`, provided the product of `d` with the numerator
of the conversion factor (`num * 10^9 / den` in lowest terms) fits the 64-bit count. -/
theorem duration_cast_to_nano (num den : ℕ) (hd : 0 < den) (d : ℤ) (h0 : 0 ≤ d)
    (hov : d * ((num * 1000000000 / Nat.gcd (num * 1000000000) den : ℕ) : ℤ) < 2 ^ 63) :
    duration_cast ⟨false, num, den⟩ time_nano_t (d : ℚ)
      = ((d * ((num * 1000000000 : ℕ) : ℤ) / (den : ℤ) : ℤ) : ℚ) := by
  obtain ⟨g, hg⟩ : ∃ g, g = Nat.gcd (num * 1000000000) den := ⟨_, rfl⟩
  have hgpos : 0 < g := by
    rw [hg]
    exact Nat.gcd_pos_of_pos_right _ hd
  obtain ⟨a, ha⟩ : ∃ a, a = num * 1000000000 / g := ⟨_, rfl⟩
  obtain ⟨b, hb⟩ : ∃ b, b = den / g := ⟨_, rfl⟩
  have han : a * g = num * 1000000000 := by
    rw [ha, hg]
    exact Nat.div_mul_cancel (Nat.gcd_dvd_left _ _)
  have hbn : b * g = den := by
    rw [hb, hg]
    exact Nat.div_mul_cancel (Nat.gcd_dvd_right _ _)
  rw [← hg, ← ha] at hov
  have hda0 : 0 ≤ d * (a : ℤ) := by positivity
  have hkey : d * ((num * 1000000000 : ℕ) : ℤ) / (den : ℤ) = d * (a : ℤ) / (b : ℤ) := by
    rw [← han, ← hbn]
    push_cast
    rw [← mul_assoc]
    exact Int.mul_ediv_mul_of_pos_left _ _ (by exact_mod_cast hgpos)
  have hmul : rep_mul false (d : ℚ) (a : ℚ) = ((d * (a : ℤ) : ℤ) : ℚ) := by
    unfold rep_mul
    rw [if_neg (by simp), truncate_intCast_mul_natCast, wrapSigned_64 _ (by linarith) hov]
  have hdiv : ∀ z : ℤ, 0 ≤ z → z < 2 ^ 63 →
      rep_div false (z : ℚ) (b : ℚ) = ((z / (b : ℤ) : ℤ) : ℚ) := by
    intro z hz hz2
    unfold rep_div
    have h1 : 0 ≤ z / (b : ℤ) := Int.ediv_nonneg hz (by positivity)
    have h2 : z / (b : ℤ) ≤ z := Int.ediv_le_self _ hz
    rw [if_neg (by simp), truncate_intCast_div_natCast z hz,
      wrapSigned_64 _ (by linarith) (by linarith)]
  unfold duration_cast time_nano_t
  simp only [Nat.mul_one, Bool.or_false]
  rw [← hg, ← ha, ← hb, hkey]
  have hsc : ∀ x : ℚ, static_cast false false x = x := fun _ => rfl
  simp only [hsc]
  split_ifs with h1 h2 h3
  · rw [h1.1, h1.2]
    simp
  · rw [hmul, h2]
    simp
  · have hd63 : d < 2 ^ 63 := by
      rw [h3] at hov
      simpa using hov
    rw [hdiv d h0 hd63, h3]
    simp
  · rw [hmul, hdiv _ hda0 hov]

theorem dump_clock_quanta (num den : ℕ) (start end_ : ℤ) :
    (dump_clock ⟨num, den, start, end_⟩).actual_quanta_ns
      = to_double (duration_cast ⟨false, num, den⟩ time_nano_t (time_point_sub end_ start)) :=
  rfl

/-- The tick difference `2^53 + 1` is no `double`: it is rounded to `2^53`. -/
theorem to_double_9007199254740993 :
    to_double (9007199254740993 : ℚ) = 9007199254740992 := by
  have h := to_double_eval 9007199254740993 53 4503599627370496 4503599627370496
    (by norm_num [abs_of_pos]) (by norm_num [abs_of_pos])
    (by rw [Int.floor_eq_iff]; norm_num) (by norm_num)
  rw [h]
  norm_num

/-! ## C7: clock-period introspection -/

/-- The periods and the quantum reported for a clock, with all side conditions as
hypotheses; the two halves are separated in `clock_metrics_accurate`. -/
theorem clock_metrics_bounds (numerator denominator quanta : ℚ) (hn : 1 ≤ numerator)
    (hn2 : numerator ≤ 2 ^ 63) (hd : 1 ≤ denominator) (hd2 : denominator ≤ 2 ^ 63)
    (num den : ℕ) (hnum : 0 < num) (hden : 0 < den)
    (start end_ : ℤ) (hse : start ≤ end_)
    (hov : (end_ - start) * ((num * 1000000000 / Nat.gcd (num * 1000000000) den : ℕ) : ℤ)
      < 2 ^ 63)
    (hr : (end_ - start) * ((num * 1000000000 : ℕ) : ℤ) / (den : ℤ) ≤ 2 ^ 53) :
    0 < (dump_generic_clock_metrics numerator denominator quanta).expected_quanta_s
      ∧ |(dump_generic_clock_metrics numerator denominator quanta).expected_quanta_s
          - numerator / denominator| ≤ numerator / denominator / 2 ^ 53
      ∧ 0 < (dump_generic_clock_metrics numerator denominator quanta).expected_quanta_ns
      ∧ |(dump_generic_clock_metrics numerator denominator quanta).expected_quanta_ns
          - numerator / denominator * 1000000000|
          ≤ numerator / denominator * 1000000000 / 2 ^ 50
      ∧ (dump_clock ⟨num, den, start, end_⟩).actual_quanta_ns
          = (((end_ - start) * ((num * 1000000000 : ℕ) : ℤ) / (den : ℤ) : ℤ) : ℚ)
      ∧ 0 ≤ (dump_clock ⟨num, den, start, end_⟩).actual_quanta_ns
      ∧ 1 / 2 ^ 64 ≤ (dump_generic_clock_metrics numerator denominator quanta).expected_quanta_s
      ∧ (dump_generic_clock_metrics numerator denominator quanta).expected_quanta_s ≤ 2 ^ 64
      ∧ (dump_generic_clock_metrics numerator denominator quanta).expected_quanta_ns
          ≤ 2 ^ 94 := by
  have hn0 : 0 < numerator := by linarith
  have hd0' : 0 < denominator := by linarith
  obtain ⟨a1, a2, b1, b2⟩ := expected_quanta_bounds numerator denominator quanta hn0 hd0'
  have hq : 0 < numerator / denominator := by positivity
  have hA : (0 : ℚ) < numerator / denominator * 1000000000 := by positivity
  have hd0 : 0 ≤ end_ - start := by linarith
  have hapos : (1 : ℤ) ≤ ((num * 1000000000 / Nat.gcd (num * 1000000000) den : ℕ) : ℤ) := by
    have hg : 0 < Nat.gcd (num * 1000000000) den := Nat.gcd_pos_of_pos_right _ hden
    have hle : Nat.gcd (num * 1000000000) den ≤ num * 1000000000 :=
      Nat.le_of_dvd (by positivity) (Nat.gcd_dvd_left _ _)
    have : 1 ≤ num * 1000000000 / Nat.gcd (num * 1000000000) den :=
      (Nat.one_le_div_iff hg).mpr hle
    exact_mod_cast this
  have hd63 : end_ - start < 2 ^ 63 := by
    have := mul_le_mul_of_nonneg_left hapos hd0
    linarith
  have hsub := time_point_sub_eq start end_ (by linarith) hd63
  have hN0 : 0 ≤ (end_ - start) * ((num * 1000000000 : ℕ) : ℤ) / (den : ℤ) :=
    Int.ediv_nonneg (by positivity) (by positivity)
  have hquanta : (dump_clock ⟨num, den, start, end_⟩).actual_quanta_ns
      = (((end_ - start) * ((num * 1000000000 : ℕ) : ℤ) / (den : ℤ) : ℤ) : ℚ) := by
    rw [dump_clock_quanta, hsub, duration_cast_to_nano num den hden _ hd0 hov,
      to_double_intCast _ (by rw [abs_of_nonneg hN0]; exact hr)]
  have p1 : (0 : ℚ) < numerator / denominator * (1 - 1 / 2 ^ 53) := by
    have : (0 : ℚ) < 1 - 1 / 2 ^ 53 := by norm_num
    positivity
  have p2 : (0 : ℚ) < numerator / denominator * 1000000000 * (1 - 1 / 2 ^ 50) := by
    have : (0 : ℚ) < 1 - 1 / 2 ^ 50 := by norm_num
    positivity
  have hqlo : (1 : ℚ) / 2 ^ 63 ≤ numerator / denominator := by
    rw [div_le_div_iff₀ (by positivity) hd0']
    nlinarith
  have hqhi : numerator / denominator ≤ 2 ^ 63 := by
    rw [div_le_iff₀ hd0']
    nlinarith
  refine ⟨by linarith, ?_, by linarith, ?_, hquanta, ?_, ?_, ?_, ?_⟩
  rotate_left 3
  · have : (1 : ℚ) / 2 ^ 63 * (1 - 1 / 2 ^ 53) ≤ numerator / denominator * (1 - 1 / 2 ^ 53) :=
      mul_le_mul_of_nonneg_right hqlo (by norm_num)
    have e : (1 : ℚ) / 2 ^ 64 ≤ 1 / 2 ^ 63 * (1 - 1 / 2 ^ 53) := by norm_num
    linarith
  · have : numerator / denominator * (1 + 1 / 2 ^ 53) ≤ 2 ^ 63 * (1 + 1 / 2 ^ 53) :=
      mul_le_mul_of_nonneg_right hqhi (by norm_num)
    have e : (2 : ℚ) ^ 63 * (1 + 1 / 2 ^ 53) ≤ 2 ^ 64 := by norm_num
    linarith
  · have : numerator / denominator * 1000000000 * (1 + 1 / 2 ^ 50)
        ≤ 2 ^ 63 * 1000000000 * (1 + 1 / 2 ^ 50) :=
      mul_le_mul_of_nonneg_right (mul_le_mul_of_nonneg_right hqhi (by norm_num)) (by norm_num)
    have e : (2 : ℚ) ^ 63 * 1000000000 * (1 + 1 / 2 ^ 50) ≤ 2 ^ 94 := by norm_num
    linarith
  · rw [abs_le]
    constructor
    · have e : numerator / denominator * (1 - 1 / 2 ^ 53)
          = numerator / denominator - numerator / denominator / 2 ^ 53 := by ring
      linarith
    · have e : numerator / denominator * (1 + 1 / 2 ^ 53)
          = numerator / denominator + numerator / denominator / 2 ^ 53 := by ring
      linarith
  · rw [abs_le]
    constructor
    · have e : numerator / denominator * 1000000000 * (1 - 1 / 2 ^ 50)
          = numerator / denominator * 1000000000
            - numerator / denominator * 1000000000 / 2 ^ 50 := by ring
      linarith
    · have e : numerator / denominator * 1000000000 * (1 + 1 / 2 ^ 50)
          = numerator / denominator * 1000000000
            + numerator / denominator * 1000000000 / 2 ^ 50 := by ring
      linarith
  · rw [hquanta]
    exact_mod_cast hN0

/-- C7 (as amended): for every clock period with numerator and denominator greater than
zero (terms of a `std::ratio`, handed over as `double` values between `1` and `2^63`),
`dump_generic_clock_metrics` reports a strictly positive tick period in seconds that
equals `num / den` up to one `double` rounding (relative error at most `2^-53`) and a
strictly positive nanosecond period that equals `(num / den) * 10^9` up to the four
roundings of the computation (relative error at most `2^-50`); and for two consecutive
readings `start ≤ end` of the same clock, whatever its period `num / den`,
`dump_timer_specs` reports the minimum quantum `DURATION_TO_NS(end - start)` as exactly the
interval in whole nanoseconds, `(end - start) * num * 10^9 / den` (for a nanosecond clock:
`end - start`), which is non-negative, as long as the conversion stays within the 64-bit
count and the result is at most `2^53`.  The reported periods stay between `2^-64` and
`2^94`, inside the normal range of `double`. -/
theorem clock_metrics_accurate (numerator denominator quanta : ℚ) (num den : ℕ)
    (start end_ : ℤ) :
    (1 ≤ numerator → numerator ≤ 2 ^ 63 → 1 ≤ denominator → denominator ≤ 2 ^ 63 →
      0 < (dump_generic_clock_metrics numerator denominator quanta).expected_quanta_s
      ∧ |(dump_generic_clock_metrics numerator denominator quanta).expected_quanta_s
          - numerator / denominator| ≤ numerator / denominator / 2 ^ 53
      ∧ 0 < (dump_generic_clock_metrics numerator denominator quanta).expected_quanta_ns
      ∧ |(dump_generic_clock_metrics numerator denominator quanta).expected_quanta_ns
          - numerator / denominator * 1000000000|
          ≤ numerator / denominator * 1000000000 / 2 ^ 50
      ∧ 1 / 2 ^ 64 ≤ (dump_generic_clock_metrics numerator denominator quanta).expected_quanta_s
      ∧ (dump_generic_clock_metrics numerator denominator quanta).expected_quanta_s ≤ 2 ^ 64
      ∧ (dump_generic_clock_metrics numerator denominator quanta).expected_quanta_ns
          ≤ 2 ^ 94)
    ∧ (0 < num → 0 < den → start ≤ end_ →
      (end_ - start) * ((num * 1000000000 / Nat.gcd (num * 1000000000) den : ℕ) : ℤ) < 2 ^ 63 →
      (end_ - start) * ((num * 1000000000 : ℕ) : ℤ) / (den : ℤ) ≤ 2 ^ 53 →
      (dump_clock ⟨num, den, start, end_⟩).actual_quanta_ns
          = (((end_ - start) * ((num * 1000000000 : ℕ) : ℤ) / (den : ℤ) : ℤ) : ℚ)
      ∧ 0 ≤ (dump_clock ⟨num, den, start, end_⟩).actual_quanta_ns) := by
  constructor
  · intro hn hn2 hd hd2
    obtain ⟨c1, c2, c3, c4, -, -, c7, c8, c9⟩ :=
      clock_metrics_bounds numerator denominator quanta hn hn2 hd hd2 1 1 (by norm_num)
        (by norm_num) 0 0 (le_refl _) (by norm_num) (by norm_num)
    exact ⟨c1, c2, c3, c4, c7, c8, c9⟩
  · intro hnum hden hse hov hr
    obtain ⟨-, -, -, -, c5, c6, -, -, -⟩ :=
      clock_metrics_bounds 1 1 quanta (by norm_num) (by norm_num) (by norm_num) (by norm_num)
        num den hnum hden start end_ hse hov hr
    exact ⟨c5, c6⟩

/-- C7, witness: a clock with period `1 / 10^7` (100 ns ticks) and two readings 3 ticks
apart; the reported quantum is 300 ns. -/
theorem clock_metrics_accurate_witness :
    (1 : ℚ) ≤ 1 ∧ (1 : ℚ) ≤ 2 ^ 63 ∧ (1 : ℚ) ≤ 10000000 ∧ (10000000 : ℚ) ≤ 2 ^ 63
      ∧ (0 : ℤ) ≤ 3
      ∧ ((3 : ℤ) - 0) * ((1 * 1000000000 : ℕ) : ℤ) / ((10000000 : ℕ) : ℤ) ≤ 2 ^ 53
      ∧ 0 < (dump_generic_clock_metrics 1 10000000 300).expected_quanta_s
      ∧ (dump_clock ⟨1, 10000000, 0, 3⟩).actual_quanta_ns
          = ((((3 : ℤ) - 0) * ((1 * 1000000000 : ℕ) : ℤ) / ((10000000 : ℕ) : ℤ) : ℤ) : ℚ) :=
  ⟨by norm_num, by norm_num, by norm_num, by norm_num, by decide, by decide,
    ((clock_metrics_accurate 1 10000000 300 1 10000000 0 3).1 (by norm_num) (by norm_num)
      (by norm_num) (by norm_num)).1,
    ((clock_metrics_accurate 1 10000000 300 1 10000000 0 3).2 (by decide) (by decide)
      (by decide) (by norm_num) (by decide)).1⟩

/-- C7, counterexample to the claim as stated: for the period `1 / 10^9` of a nanosecond
clock the reported seconds are not `1 / 10^9` (which is no `double`) and the reported
nanosecond period is `1 + 2^-52`, not `(1 / 10^9) * 10^9 = 1`; and for two readings of
that clock `2^53 + 1` ns apart the reported quantum is `2^53`, not `end - start`. -/
theorem clock_metrics_nano_inexact :
    (dump_generic_clock_metrics 1 1000000000 0).expected_quanta_s ≠ 1 / 1000000000
      ∧ (dump_generic_clock_metrics 1 1000000000 0).expected_quanta_ns
          ≠ 1 / 1000000000 * 1000000000
      ∧ (0 : ℤ) ≤ 9007199254740993
      ∧ (dump_clock ⟨1, 1000000000, 0, 9007199254740993⟩).actual_quanta_ns
          ≠ (((9007199254740993 : ℤ) - 0 : ℤ) : ℚ) := by
  obtain ⟨h1, h2⟩ := dump_generic_clock_metrics_nano 0
  have h3 : (dump_clock ⟨1, 1000000000, 0, 9007199254740993⟩).actual_quanta_ns
      = 9007199254740992 := by
    rw [dump_clock_nano_quanta, time_point_sub_eq 0 _ (by norm_num) (by norm_num)]
    have e : (((9007199254740993 - 0 : ℤ) : ℤ) : ℚ) = (9007199254740993 : ℚ) := by norm_num
    rw [e, to_double_9007199254740993]
  rw [h1, h2, h3]
  refine ⟨?_, ?_, by norm_num, ?_⟩ <;> norm_num

/-! ## C8: the `sleep` wrapper -/

/-- C8 (as amended): for every `seconds` from `0` to `4294967` the millisecond count the
wrapper `sleep` passes to `Sleep` is exactly `seconds * 1000`, and the wrapper returns
`0`; `benchmark_c` passes `1000`. -/
theorem sleep_passes_milliseconds (seconds : ℤ) (h0 : 0 ≤ seconds) (h1 : seconds ≤ 4294967) :
    sleep seconds = (seconds * 1000, 0) ∧ benchmark_c = (1000, 0) := by
  unfold benchmark_c sleep wrapUnsigned
  constructor
  · rw [Int.emod_eq_of_lt (by linarith) (by norm_num; linarith)]
  · norm_num

/-- C8, witness: the call `sleep(1)` of `benchmark_c`. -/
theorem sleep_passes_milliseconds_witness :
    (0 : ℤ) ≤ 1 ∧ (1 : ℤ) ≤ 4294967 ∧ sleep 1 = (1 * 1000, 0) :=
  ⟨by decide, by decide, (sleep_passes_milliseconds 1 (by decide) (by decide)).1⟩

/-- C8, counterexample to the claim as stated (every `unsigned int` value): for
`seconds = 4294968` the 32-bit product handed to `Sleep` is `704`, not `4294968000`. -/
theorem sleep_product_wraps :
    (0 : ℤ) ≤ 4294968 ∧ (4294968 : ℤ) < 2 ^ 32 ∧ sleep 4294968 = (704, 0)
      ∧ (sleep 4294968).1 ≠ 4294968 * 1000 := by
  unfold sleep wrapUnsigned
  norm_num

/-! ## C9: the `gettimeofday` shim -/

/-- C9: `EPOCH` is `134774` days of `86400` seconds in units of 100 ns; and for every
FILETIME value `t ≥ EPOCH` (delivered as its two 32-bit halves) whose quotient fits the
32-bit `tv_sec`, and every `wMilliseconds` value `m` in `0..999`, the shim returns `0`,
sets `tv_sec = (t - EPOCH) / 10^7` and `tv_usec = 1000 * m`, which lies in `0..999000`. -/
theorem gettimeofday_shim (t m : ℤ) (ht : EPOCH ≤ t) (hq : (t - EPOCH) / 10000000 < 2 ^ 31)
    (hm0 : 0 ≤ m) (hm1 : m ≤ 999) :
    EPOCH = 134774 * 86400 * 10 ^ 7
      ∧ gettimeofday m (t % 2 ^ 32) (t / 2 ^ 32)
        = (0, { tv_sec := (t - EPOCH) / 10000000, tv_usec := 1000 * m })
      ∧ 0 ≤ 1000 * m ∧ 1000 * m ≤ 999000 := by
  refine ⟨by norm_num [EPOCH], ?_, by linarith, by linarith⟩
  unfold EPOCH at ht hq
  norm_num at hq
  have hlow0 : 0 ≤ t % 4294967296 := Int.emod_nonneg _ (by norm_num)
  have hlow1 : t % 4294967296 < 4294967296 := Int.emod_lt_of_pos _ (by norm_num)
  have hsplit : t % 4294967296 + t / 4294967296 * 4294967296 = t := by
    have := Int.emod_add_ediv t 4294967296
    linarith
  have ht64 : t < 18446744073709551616 := by omega
  have hhi0 : 0 ≤ t / 4294967296 := by omega
  have hhi1 : t / 4294967296 < 4294967296 := by omega
  have e1 : wrapUnsigned 64 (t % 2 ^ 32) = t % 4294967296 := by
    unfold wrapUnsigned
    norm_num
    omega
  have e2 : wrapUnsigned 64 (t / 2 ^ 32) = t / 4294967296 := by
    unfold wrapUnsigned
    norm_num
    omega
  have e3 : wrapUnsigned 64 (t / 4294967296 * 2 ^ 32) = t / 4294967296 * 4294967296 := by
    unfold wrapUnsigned
    norm_num
    omega
  have e4 : wrapUnsigned 64 (t % 4294967296 + t / 4294967296 * 4294967296) = t := by
    rw [hsplit]
    unfold wrapUnsigned
    norm_num
    omega
  have e5 : wrapUnsigned 64 (t - EPOCH) = t - 116444736000000000 := by
    unfold wrapUnsigned EPOCH
    norm_num
    omega
  have e6 : wrapSigned 32 ((t - 116444736000000000) / 10000000)
      = (t - 116444736000000000) / 10000000 :=
    wrapSigned_of_bounds 32 (by norm_num) _ (by norm_num; omega) (by norm_num; omega)
  have e7 : wrapSigned 32 (m * 1000) = m * 1000 :=
    wrapSigned_of_bounds 32 (by norm_num) _ (by norm_num; omega) (by norm_num; omega)
  unfold gettimeofday
  simp only [e1, e2, e3, e4, e5, e6, e7]
  unfold EPOCH
  rw [mul_comm m 1000]

/-- C9, witness: the FILETIME value `EPOCH` itself with `wMilliseconds = 999`; `tv_sec`
is `0` and `tv_usec` is `999000`. -/
theorem gettimeofday_shim_witness :
    EPOCH ≤ EPOCH ∧ (EPOCH - EPOCH) / 10000000 < 2 ^ 31
      ∧ gettimeofday 999 (EPOCH % 2 ^ 32) (EPOCH / 2 ^ 32)
        = (0, { tv_sec := (EPOCH - EPOCH) / 10000000, tv_usec := 1000 * 999 })
      ∧ (EPOCH - EPOCH) / 10000000 = 0 :=
  ⟨le_refl _, by decide,
    (gettimeofday_shim EPOCH 999 (le_refl _) (by decide) (by decide) (by decide)).2.1,
    by decide⟩

/-! ## C10: `demo_c_time` ignores sub-second time -/

/-- The `float` product of `demo_c_time` for readings `134219` whole seconds apart:
`134219000` is no `float`, the product is rounded to `134219008`. -/
theorem demo_c_time_134219 :
    demo_c_time 32 ⟨0, 0⟩ ⟨134219, 0⟩ = 134219008 := by
  unfold demo_c_time
  rw [wrapSigned_of_bounds 32 (by norm_num) _ (by norm_num) (by norm_num)]
  simp only []
  have e0 : (((134219 - 0 : ℤ) : ℤ) : ℚ) = ((134219 : ℤ) : ℚ) := by norm_num
  have e1 : ((134219 : ℤ) : ℚ) * 1000 = 134219000 := by norm_num
  have h : to_float (134219000 : ℚ) = ((8388688 : ℤ) : ℚ) * 2 ^ ((27 : ℤ) - (((24 : ℕ) : ℤ) - 1)) :=
    roundNE_eval 24 134219000 27 8388688 (by norm_num [abs_of_pos]) (by norm_num [abs_of_pos])
      (by
        rw [roundHalfEven_eq_of_floor _ 8388687 (by rw [Int.floor_eq_iff]; norm_num)]
        norm_num)
  have e2 : ((8388688 : ℤ) : ℚ) * 2 ^ ((27 : ℤ) - (((24 : ℕ) : ℤ) - 1))
      = ((134219008 : ℤ) : ℚ) := by norm_num
  rw [e0, to_float_intCast 134219 (by norm_num), e1, h, e2,
    to_double_intCast 134219008 (by norm_num)]
  norm_num

/-- C10 (as amended): for all `timeval` readings, whatever the width of `long`, the value
printed by `demo_c_time` does not depend on either `tv_usec` field; for readings whose
`tv_sec` fields are at most `134218` apart it equals
`1000 * (end.tv_sec - start.tv_sec)`, a whole multiple of `1000` (`0` for two readings
within the same second), and with `tv_usec` in `0..999999` it differs from the true
elapsed milliseconds by strictly less than `1000`. -/
theorem demo_c_time_whole_seconds (long_bits : ℕ) (start end_ : timeval) :
    (∀ u1 u2 u3 u4 : ℤ, demo_c_time long_bits ⟨start.tv_sec, u1⟩ ⟨end_.tv_sec, u2⟩
        = demo_c_time long_bits ⟨start.tv_sec, u3⟩ ⟨end_.tv_sec, u4⟩)
      ∧ (∀ u1 u2 : ℤ, demo_c_time long_bits ⟨start.tv_sec, u1⟩ ⟨end_.tv_sec, u2⟩
        = demo_c_time long_bits start end_)
      ∧ (32 ≤ long_bits → |end_.tv_sec - start.tv_sec| ≤ 134218 →
        demo_c_time long_bits start end_ = 1000 * ((end_.tv_sec - start.tv_sec : ℤ) : ℚ)
        ∧ (∃ n : ℤ, demo_c_time long_bits start end_ = 1000 * (n : ℚ))
        ∧ (end_.tv_sec = start.tv_sec → demo_c_time long_bits start end_ = 0)
        ∧ (0 ≤ start.tv_usec ∧ start.tv_usec ≤ 999999 →
            0 ≤ end_.tv_usec ∧ end_.tv_usec ≤ 999999 →
            |demo_c_time long_bits start end_ - (elapsed_usec start end_ : ℚ) / 1000|
              < 1000)) := by
  refine ⟨fun u1 u2 u3 u4 => rfl, fun u1 u2 => rfl, ?_⟩
  intro hw h
  have hval := demo_c_time_eq long_bits hw start end_ h
  refine ⟨hval, ⟨_, hval⟩, ?_, ?_⟩
  · intro hs
    rw [hval, hs]
    simp
  · intro hs hn
    rw [hval]
    unfold elapsed_usec
    have e : 1000 * ((end_.tv_sec - start.tv_sec : ℤ) : ℚ)
        - (((end_.tv_sec - start.tv_sec) * 1000000 + (end_.tv_usec - start.tv_usec) : ℤ) : ℚ)
          / 1000 = ((start.tv_usec - end_.tv_usec : ℤ) : ℚ) / 1000 := by
      push_cast
      ring
    rw [e, abs_lt]
    have a : ((-999999 : ℤ) : ℚ) ≤ ((start.tv_usec - end_.tv_usec : ℤ) : ℚ) := by
      exact_mod_cast (by omega : (-999999 : ℤ) ≤ start.tv_usec - end_.tv_usec)
    have b : ((start.tv_usec - end_.tv_usec : ℤ) : ℚ) ≤ ((999999 : ℤ) : ℚ) := by
      exact_mod_cast (by omega : start.tv_usec - end_.tv_usec ≤ (999999 : ℤ))
    constructor
    · rw [lt_div_iff₀ (by norm_num)]
      norm_num at a ⊢
      linarith
    · rw [div_lt_iff₀ (by norm_num)]
      norm_num at b ⊢
      linarith

/-- C10, witness: readings at 5.9 s and 7.1 s on the wall clock. -/
theorem demo_c_time_whole_seconds_witness :
    32 ≤ 32 ∧ |(⟨7, 100000⟩ : timeval).tv_sec - (⟨5, 900000⟩ : timeval).tv_sec| ≤ 134218
      ∧ demo_c_time 32 ⟨5, 900000⟩ ⟨7, 100000⟩
        = 1000 * ((((⟨7, 100000⟩ : timeval).tv_sec - (⟨5, 900000⟩ : timeval).tv_sec : ℤ)) : ℚ) :=
  ⟨by decide, by decide,
    ((demo_c_time_whole_seconds 32 ⟨5, 900000⟩ ⟨7, 100000⟩).2.2 (by decide) (by decide)).1⟩

/-- C10, counterexample to the claim as stated (all readings): for readings `134219`
whole seconds apart `demo_c_time` prints `134219008`, which is neither
`1000 * 134219` nor a whole multiple of `1000`. -/
theorem demo_c_time_float_rounding :
    demo_c_time 32 ⟨0, 0⟩ ⟨134219, 0⟩ ≠ 1000 * ((((134219 : ℤ) - 0 : ℤ)) : ℚ)
      ∧ ¬ ∃ n : ℤ, demo_c_time 32 ⟨0, 0⟩ ⟨134219, 0⟩ = 1000 * (n : ℚ) := by
  rw [demo_c_time_134219]
  constructor
  · norm_num
  · rintro ⟨n, hn⟩
    have : (134219008 : ℤ) = 1000 * n := by exact_mod_cast hn
    omega

/-! ### Microseconds against nanoseconds -/

/-- The microsecond value derived from `delta_ms`, for a tick difference `d` below `2^53`:
it is the floor of the `double` product `y = delta_ms * 1000`; when `d` is no whole number
of microseconds the product does not fall below `d / 1000`, and when it is one the
product does not reach the next microsecond. -/
theorem us_of_delta_ms_sharp (d : ℤ) (hd : 0 ≤ d) (hd2 : d < 2 ^ 53) :
    to_double ((wrapSigned 64
        (truncate (to_double (to_double ((d : ℚ) / 1000000) * 1000))) : ℤ) : ℚ)
        = ((⌊to_double (to_double ((d : ℚ) / 1000000) * 1000)⌋ : ℤ) : ℚ)
      ∧ (d % 1000 ≠ 0 → d / 1000 ≤ ⌊to_double (to_double ((d : ℚ) / 1000000) * 1000)⌋)
      ∧ (d % 1000 = 0 → ⌊to_double (to_double ((d : ℚ) / 1000000) * 1000)⌋ ≤ d / 1000) := by
  obtain ⟨hlo, hhi⟩ := delta_ms_bounds d hd hd2
  have hq0 : (0 : ℚ) ≤ (d : ℚ) / 1000000 := by positivity
  have hxerr := to_double_abs_sub_le ((d : ℚ) / 1000000)
  rw [abs_of_nonneg hq0, abs_le] at hxerr
  obtain ⟨x, hx⟩ : ∃ x, x = to_double ((d : ℚ) / 1000000) := ⟨_, rfl⟩
  rw [← hx] at hlo hhi hxerr ⊢
  have hk0 : 0 ≤ d / 1000000 := Int.ediv_nonneg hd (by norm_num)
  have hkq : (0 : ℚ) ≤ ((d / 1000000 : ℤ) : ℚ) := by exact_mod_cast hk0
  have hx0 : 0 ≤ x := le_trans hkq hlo
  have hz0 : 0 ≤ x * 1000 := by positivity
  have hy0 : 0 ≤ to_double (x * 1000) := to_double_nonneg hz0
  have hdq : (d : ℚ) < 2 ^ 53 := by exact_mod_cast hd2
  have hdq0 : (0 : ℚ) ≤ (d : ℚ) := by exact_mod_cast hd
  have hsmall : (d : ℚ) / 1000000 / 2 ^ 53 * 1000 < 1 / 1000 := by
    have e : (d : ℚ) / 1000000 / 2 ^ 53 * 1000 = (d : ℚ) / 2 ^ 53 * (1 / 1000) := by ring
    rw [e]
    have h1 : (d : ℚ) / 2 ^ 53 < 1 := by
      rw [div_lt_one (by positivity)]
      exact hdq
    have := mul_lt_mul_of_pos_right h1 (by norm_num : (0 : ℚ) < 1 / 1000)
    linarith
  have hzlo : (d : ℚ) / 1000 - 1 / 1000 < x * 1000 := by
    have e : (d : ℚ) / 1000 = (d : ℚ) / 1000000 * 1000 := by ring
    linarith [hxerr.1]
  have hzhi : x * 1000 < (d : ℚ) / 1000 + 1 / 1000 := by
    have e : (d : ℚ) / 1000 = (d : ℚ) / 1000000 * 1000 := by ring
    linarith [hxerr.2]
  have hupper : to_double (x * 1000) ≤ ((1000 * (d / 1000000 + 1) : ℤ) : ℚ) := by
    have hex := to_double_intCast (1000 * (d / 1000000 + 1)) (by
      rw [abs_of_nonneg (by positivity)]
      norm_num at hd2 ⊢
      omega)
    rw [← hex]
    apply to_double_mono
    push_cast
    have h1 : (((d / 1000000 : ℤ) : ℚ) + 1) * (1 - 1 / 2 ^ 53) ≤ ((d / 1000000 : ℤ) : ℚ) + 1 := by
      have : (0 : ℚ) ≤ (((d / 1000000 : ℤ) : ℚ) + 1) * (1 / 2 ^ 53) := by positivity
      linarith
    linarith
  refine ⟨?_, ?_, ?_⟩
  · rw [truncate_of_nonneg hy0]
    have hU0 : 0 ≤ ⌊to_double (x * 1000)⌋ := Int.floor_nonneg.mpr hy0
    have hU1 : ⌊to_double (x * 1000)⌋ ≤ 1000 * (d / 1000000 + 1) := by
      have := Int.floor_le (to_double (x * 1000))
      have : ((⌊to_double (x * 1000)⌋ : ℤ) : ℚ) ≤ ((1000 * (d / 1000000 + 1) : ℤ) : ℚ) :=
        le_trans this hupper
      exact_mod_cast this
    have hU2 : 1000 * (d / 1000000 + 1) < 2 ^ 53 := by
      norm_num at hd2 ⊢
      omega
    rw [wrapSigned_64 _ (by linarith) (by linarith)]
    exact to_double_intCast _ (by rw [abs_of_nonneg hU0]; linarith)
  · intro hr
    have hQ0 : 0 ≤ d / 1000 := Int.ediv_nonneg hd (by norm_num)
    have hdQ : 1000 * (d / 1000) + 1 ≤ d := by omega
    have hdQq : 1000 * ((d / 1000 : ℤ) : ℚ) + 1 ≤ (d : ℚ) := by exact_mod_cast hdQ
    apply Int.le_floor.mpr
    have hex := to_double_intCast (d / 1000) (by
      rw [abs_of_nonneg hQ0]
      omega)
    rw [← hex]
    apply to_double_mono
    linarith
  · intro hr
    have hQ0 : 0 ≤ d / 1000 := Int.ediv_nonneg hd (by norm_num)
    have hdQ : d = 1000 * (d / 1000) := by omega
    have hdQq : (d : ℚ) = 1000 * ((d / 1000 : ℤ) : ℚ) := by exact_mod_cast hdQ
    have hex := to_double_dyadic (2 * (d / 1000) + 1) (-1) (by
      rw [abs_of_nonneg (by positivity)]
      norm_num at hd2 ⊢
      omega)
    have e : ((2 * (d / 1000) + 1 : ℤ) : ℚ) * 2 ^ (-1 : ℤ) = ((d / 1000 : ℤ) : ℚ) + 1 / 2 := by
      push_cast
      rw [zpow_neg_one]
      ring
    rw [e] at hex
    have hle : to_double (x * 1000) ≤ ((d / 1000 : ℤ) : ℚ) + 1 / 2 := by
      rw [← hex]
      apply to_double_mono
      linarith
    have hlt : to_double (x * 1000) < ((d / 1000 + 1 : ℤ) : ℚ) := by
      push_cast
      linarith
    have := Int.floor_lt.mpr hlt
    omega

/-- The three values of `demo_time_units_compact` for the tick difference `1.025 ms`. -/
theorem demo_time_units_compact_1025000 :
    demo_time_units_compact 0 1025000 = { ms := 1, us := 1025, ns := 1024999 } := by
  rw [demo_time_units_compact_eq, time_point_sub_eq 0 _ (by norm_num) (by norm_num)]
  have e1 : (((1025000 - 0 : ℤ) : ℤ) : ℚ) = ((1025000 : ℤ) : ℚ) := by norm_num
  have hx : to_double (((1025000 : ℤ) : ℚ) / 1000000)
      = ((4616189618054758 : ℤ) : ℚ) * 2 ^ ((0 : ℤ) - 52) :=
    to_double_eval _ 0 4616189618054758 4616189618054758 (by norm_num [abs_of_pos])
      (by norm_num [abs_of_pos]) (by rw [Int.floor_eq_iff]; norm_num) (by norm_num)
  have hus : to_double (((4616189618054758 : ℤ) : ℚ) * 2 ^ ((0 : ℤ) - 52) * 1000)
      = ((4507997673881600 : ℤ) : ℚ) * 2 ^ ((10 : ℤ) - 52) :=
    to_double_eval _ 10 4507997673881599 4507997673881600 (by norm_num [abs_of_pos])
      (by norm_num [abs_of_pos]) (by rw [Int.floor_eq_iff]; norm_num) (by norm_num)
  have hns : to_double (((4616189618054758 : ℤ) : ℚ) * 2 ^ ((0 : ℤ) - 52) * 1000000)
      = ((8804682956799999 : ℤ) : ℚ) * 2 ^ ((19 : ℤ) - 52) :=
    to_double_eval _ 19 8804682956799999 8804682956799999 (by norm_num [abs_of_pos])
      (by norm_num [abs_of_pos]) (by rw [Int.floor_eq_iff]; norm_num) (by norm_num)
  have t1 : truncate (((4616189618054758 : ℤ) : ℚ) * 2 ^ ((0 : ℤ) - 52)) = 1 := by
    rw [truncate_of_nonneg (by norm_num), Int.floor_eq_iff]
    norm_num
  have t2 : truncate (((4507997673881600 : ℤ) : ℚ) * 2 ^ ((10 : ℤ) - 52)) = 1025 := by
    rw [truncate_of_nonneg (by norm_num), Int.floor_eq_iff]
    norm_num
  have t3 : truncate (((8804682956799999 : ℤ) : ℚ) * 2 ^ ((19 : ℤ) - 52)) = 1024999 := by
    rw [truncate_of_nonneg (by norm_num), Int.floor_eq_iff]
    norm_num
  rw [e1, to_double_intCast 1025000 (by norm_num), hx, hus, hns, t1, t2, t3,
    wrapSigned_64 1 (by norm_num) (by norm_num),
    wrapSigned_64 1025 (by norm_num) (by norm_num),
    wrapSigned_64 1024999 (by norm_num) (by norm_num),
    to_double_intCast 1 (by norm_num), to_double_intCast 1025 (by norm_num),
    to_double_intCast 1024999 (by norm_num)]
  norm_num

/-- The three values of `demo_time_units_compact` for the tick difference
`1110609269404999999` (about 35 years), beyond what a `double` holds exactly. -/
theorem demo_time_units_compact_1110609269404999999 :
    demo_time_units_compact 0 1110609269404999999
      = { ms := 1110609269405, us := 1110609269405000, ns := 1110609269404999936 } := by
  rw [demo_time_units_compact_eq, time_point_sub_eq 0 _ (by norm_num) (by norm_num)]
  have e1 : (((1110609269404999999 - 0 : ℤ) : ℤ) : ℚ) = (1110609269404999999 : ℚ) := by
    norm_num
  have hd : to_double (1110609269404999999 : ℚ)
      = ((8676634917226562 : ℤ) : ℚ) * 2 ^ ((59 : ℤ) - 52) :=
    to_double_eval _ 59 8676634917226562 8676634917226562 (by norm_num [abs_of_pos])
      (by norm_num [abs_of_pos]) (by rw [Int.floor_eq_iff]; norm_num) (by norm_num)
  have hx : to_double (((8676634917226562 : ℤ) : ℚ) * 2 ^ ((59 : ℤ) - 52) / 1000000)
      = ((4549055567482880 : ℤ) : ℚ) * 2 ^ ((40 : ℤ) - 52) :=
    to_double_eval _ 40 4549055567482879 4549055567482880 (by norm_num [abs_of_pos])
      (by norm_num [abs_of_pos]) (by rw [Int.floor_eq_iff]; norm_num) (by norm_num)
  have ex : ((4549055567482880 : ℤ) : ℚ) * 2 ^ ((40 : ℤ) - 52) = ((1110609269405 : ℤ) : ℚ) := by
    norm_num
  have eus : ((1110609269405 : ℤ) : ℚ) * 1000 = ((1110609269405000 : ℤ) : ℚ) := by norm_num
  have hns : to_double (((1110609269405 : ℤ) : ℚ) * 1000000)
      = ((8676634917226562 : ℤ) : ℚ) * 2 ^ ((59 : ℤ) - 52) :=
    to_double_eval _ 59 8676634917226562 8676634917226562 (by norm_num [abs_of_pos])
      (by norm_num [abs_of_pos]) (by rw [Int.floor_eq_iff]; norm_num) (by norm_num)
  have ens : ((8676634917226562 : ℤ) : ℚ) * 2 ^ ((59 : ℤ) - 52)
      = ((1110609269404999936 : ℤ) : ℚ) := by norm_num
  have hfin : to_double ((1110609269404999936 : ℤ) : ℚ) = ((1110609269404999936 : ℤ) : ℚ) := by
    rw [← ens]
    exact to_double_dyadic 8676634917226562 _ (by norm_num)
  rw [e1, hd, hx, ex, eus, hns, ens, to_double_intCast 1110609269405000 (by norm_num),
    truncate_intCast, truncate_intCast, truncate_intCast,
    wrapSigned_64 1110609269405 (by norm_num) (by norm_num),
    wrapSigned_64 1110609269405000 (by norm_num) (by norm_num),
    wrapSigned_64 1110609269404999936 (by norm_num) (by norm_num),
    to_double_intCast 1110609269405 (by norm_num),
    to_double_intCast 1110609269405000 (by norm_num), hfin]
  norm_num

/-! ## C11: the conversions as a floor chain -/

/-- C11 (as amended): for clock readings `begin ≤ end` less than `2^53` ns apart, the
values `ms`, `us`, `ns` that `DURATION_TO_MS`, `DURATION_TO_US`, `DURATION_TO_NS` derive
from the same `dur_ms` duration (`demo_time_units_compact`, first block of
`demo_time_units_compare`) are whole numbers with `ms = ⌊us / 1000⌋ = ⌊ns / 10^6⌋`, hence
`0 ≤ us - 1000 * ms ≤ 999` and `0 ≤ ns - 10^6 * ms ≤ 999999`; `us` is within one unit of
`⌊ns / 1000⌋`. -/
theorem conversion_floor_chain (begin end_ : ℤ) (h : begin ≤ end_)
    (hr : end_ - begin < 2 ^ 53) :
    (demo_time_units_compare begin end_).1 = demo_time_units_compact begin end_
      ∧ ∃ k U V : ℤ, (demo_time_units_compact begin end_).ms = (k : ℚ)
        ∧ (demo_time_units_compact begin end_).us = (U : ℚ)
        ∧ (demo_time_units_compact begin end_).ns = (V : ℚ)
        ∧ k = U / 1000 ∧ k = V / 1000000
        ∧ V / 1000 - 1 ≤ U ∧ U ≤ V / 1000 + 1
        ∧ 0 ≤ U - 1000 * k ∧ U - 1000 * k ≤ 999
        ∧ 0 ≤ V - 1000000 * k ∧ V - 1000000 * k ≤ 999999 := by
  refine ⟨demo_time_units_compare_fst begin end_, ?_⟩
  have hd : 0 ≤ end_ - begin := by linarith
  obtain ⟨U, V, hval, hU1, hU2, hU3, hU4, hV1, hV2, hV3, hV4⟩ :=
    units_of_delta_ms begin end_ h hr
  obtain ⟨hfl, hs1, hs2⟩ := us_of_delta_ms_sharp (end_ - begin) hd hr
  have hus : (demo_time_units_compact begin end_).us
      = ((⌊to_double (to_double (((end_ - begin : ℤ) : ℚ) / 1000000) * 1000)⌋ : ℤ) : ℚ) := by
    rw [demo_time_units_compact_eq, time_point_sub_eq begin end_ (by linarith) (by linarith),
      to_double_intCast (end_ - begin) (by rw [abs_of_nonneg hd]; linarith)]
    exact hfl
  have hUeq : ⌊to_double (to_double (((end_ - begin : ℤ) : ℚ) / 1000000) * 1000)⌋ = U := by
    rw [hval] at hus
    have : (U : ℚ)
        = ((⌊to_double (to_double (((end_ - begin : ℤ) : ℚ) / 1000000) * 1000)⌋ : ℤ) : ℚ) := hus
    exact_mod_cast this.symm
  rw [hUeq] at hs1 hs2
  refine ⟨(end_ - begin) / 1000000, U, V, by rw [hval], by rw [hval], by rw [hval],
    ?_, ?_, ?_, ?_, ?_, ?_, ?_, ?_⟩
  · omega
  · omega
  · by_cases hm : (end_ - begin) % 1000 = 0
    · have := hs2 hm
      omega
    · have := hs1 hm
      omega
  · by_cases hm : (end_ - begin) % 1000 = 0
    · have := hs2 hm
      omega
    · have := hs1 hm
      omega
  · omega
  · omega
  · omega
  · omega

/-- C11, witness: readings 1.0005 s apart. -/
theorem conversion_floor_chain_witness :
    (0 : ℤ) ≤ 1000500000 ∧ (1000500000 : ℤ) - 0 < 2 ^ 53
      ∧ ∃ k U V : ℤ, (demo_time_units_compact 0 1000500000).ms = (k : ℚ)
        ∧ (demo_time_units_compact 0 1000500000).us = (U : ℚ)
        ∧ (demo_time_units_compact 0 1000500000).ns = (V : ℚ)
        ∧ k = U / 1000 ∧ k = V / 1000000
        ∧ V / 1000 - 1 ≤ U ∧ U ≤ V / 1000 + 1
        ∧ 0 ≤ U - 1000 * k ∧ U - 1000 * k ≤ 999
        ∧ 0 ≤ V - 1000000 * k ∧ V - 1000000 * k ≤ 999999 :=
  ⟨by decide, by decide,
    (conversion_floor_chain 0 1000500000 (by decide) (by decide)).2⟩

/-- C11, counterexample to the claim as stated: for readings `1.025 ms` apart the values
are `ms = 1`, `us = 1025`, `ns = 1024999`, so `us` is not `⌊ns / 1000⌋ = 1024`; and for
readings `1110609269404999999` ns apart they are `ms = 1110609269405`,
`ns = 1110609269404999936`, so `ms` is not `⌊ns / 10^6⌋ = 1110609269404`. -/
theorem conversion_floor_chain_breaks :
    (0 : ℤ) ≤ 1025000 - 0
      ∧ demo_time_units_compact 0 1025000 = { ms := 1, us := 1025, ns := 1024999 }
      ∧ (demo_time_units_compact 0 1025000).us
          ≠ ((⌊(demo_time_units_compact 0 1025000).ns / 1000⌋ : ℤ) : ℚ)
      ∧ (0 : ℤ) ≤ 1110609269404999999 - 0
      ∧ (demo_time_units_compact 0 1110609269404999999).ms
          ≠ ((⌊(demo_time_units_compact 0 1110609269404999999).ns / 1000000⌋ : ℤ) : ℚ) := by
  rw [demo_time_units_compact_1025000, demo_time_units_compact_1110609269404999999]
  have f1 : ⌊(1024999 : ℚ) / 1000⌋ = 1024 := by
    rw [Int.floor_eq_iff]
    norm_num
  have f2 : ⌊(1110609269404999936 : ℚ) / 1000000⌋ = 1110609269404 := by
    rw [Int.floor_eq_iff]
    norm_num
  refine ⟨by norm_num, rfl, ?_, by norm_num, ?_⟩
  · simp only [f1]
    norm_num
  · simp only [f2]
    norm_num

end ChronoDemo
